import Mathlib

/-!
Verification of the transport/reconnection core of a browser voice-session
client.  The TypeScript source is shallowly embedded: pure functions become
Lean functions on ℚ / ℕ / lists, the timer-driven reconnection controller
becomes an explicit state-transition system, and host primitives
(Math.random, Date.now, JSON.parse results of the peer, fetch outcomes) are
explicit parameters.
-/

/-! ## Transport types (src/config.ts, src/hooks/useReconnect.ts) -/

/-- The three wire transports (type TransportType in src/config.ts). -/
inductive TransportType where
  | websocket : TransportType
  | sse : TransportType
  | polling : TransportType
deriving DecidableEq, BEq, Repr

/-- Connection status enum (src/types/session.ts): connecting, open, closed,
error.  The source literal "open" is a Lean keyword, rendered here as
`opened`. -/
inductive ConnectionStatus where
  | connecting : ConnectionStatus
  | opened : ConnectionStatus
  | closed : ConnectionStatus
  | error : ConnectionStatus
deriving DecidableEq, BEq, Repr

/-! ## Reconnection configuration and delay computation
(src/hooks/useReconnect.ts lines 8-44 and 82-97).
Millisecond quantities are modelled as rationals, since the source computes
with JS numbers and the operations used (min, *, +, Math.floor) are exact on
the rationals arising here. -/

/-- interface ReconnectConfig (useReconnect.ts lines 8-15). -/
structure ReconnectConfig where
  initialDelay : ℚ
  maxDelay : ℚ
  multiplier : ℚ
  maxAttempts : ℕ
  jitter : Bool
  jitterPercent : ℚ
deriving DecidableEq, Repr

/-- DEFAULT_CONFIG (useReconnect.ts lines 37-44) with the config.performance
defaults of src/config.ts (initial 1000 ms, max 30000 ms, 10 attempts),
multiplier 2, jitter on at 20 percent. -/
def defaultReconnectConfig : ReconnectConfig :=
  { initialDelay := 1000
    maxDelay := 30000
    multiplier := 2
    maxAttempts := 10
    jitter := true
    jitterPercent := 1/5 }

/-- calculateNextDelay (useReconnect.ts lines 82-97).  `r` is the random
draw `Math.random() * 2 - 1`, a value in [-1, 1). -/
def calculateNextDelay (cfg : ReconnectConfig) (currentDelay : ℚ) (r : ℚ) : ℚ :=
  let baseDelay := min (currentDelay * cfg.multiplier) cfg.maxDelay
  if cfg.jitter then
    let jitterAmount := baseDelay * cfg.jitterPercent
    let jitter := jitterAmount * r
    (⌊baseDelay + jitter⌋ : ℤ)
  else
    baseDelay

/-- The pre-jitter base of the next delay: `min(currentDelay * multiplier,
maxDelay)` (useReconnect.ts lines 84-87). -/
def baseOf (cfg : ReconnectConfig) (currentDelay : ℚ) : ℚ :=
  min (currentDelay * cfg.multiplier) cfg.maxDelay

/-- The sequence of nextDelay values produced by repeated scheduling:
index 0 is the first attempt (config.initialDelay, useReconnect.ts line
172-174), each later index applies calculateNextDelay to its predecessor
with that attempt's random draw `rs`. -/
def delaySeq (cfg : ReconnectConfig) (rs : ℕ → ℚ) : ℕ → ℚ
  | 0 => cfg.initialDelay
  | n + 1 => calculateNextDelay cfg (delaySeq cfg rs n) (rs n)

/-! ## Transport rotation (useReconnect.ts lines 32 and 102-111) -/

/-- TRANSPORT_FALLBACK_ORDER (useReconnect.ts line 32). -/
def TRANSPORT_FALLBACK_ORDER : List TransportType :=
  [TransportType.websocket, TransportType.sse, TransportType.polling]

/-- getNextTransport (useReconnect.ts lines 102-111).  The source indexes the
array at `(currentIndex + 1) % length`, always in bounds; `getD` supplies the
(unreachable) out-of-bounds default. -/
def getNextTransport (current : TransportType) : TransportType :=
  let currentIndex := TRANSPORT_FALLBACK_ORDER.indexOf current
  let nextIndex := (currentIndex + 1) % TRANSPORT_FALLBACK_ORDER.length
  TRANSPORT_FALLBACK_ORDER.getD nextIndex TransportType.websocket

/-- The transports used by a run of consecutively scheduled attempts:
attempt 1 uses the successor of the transport active when reconnection
began, and each further attempt advances once more (scheduleReconnection,
useReconnect.ts lines 177 and 197). -/
def attemptTransports : ℕ → TransportType → List TransportType
  | 0, _ => []
  | n + 1, t => getNextTransport t :: attemptTransports n (getNextTransport t)

/-! ## Reconnection controller state machine
(useReconnect.ts lines 20-27 and 158-267).  The two browser timers
(setTimeout for the reconnection attempt, setInterval for the countdown) are
modelled by explicit fields; arming a timer records it, clearTimers erases
both (lines 116-125). -/

/-- interface ReconnectState (useReconnect.ts lines 20-27). -/
structure ReconnectState where
  isReconnecting : Bool
  attempts : ℕ
  nextDelay : ℚ
  countdown : ℤ
  currentTransport : TransportType
  maxAttemptsReached : Bool
deriving DecidableEq, Repr

/-- Controller state: the React state plus the pending timers tracked through
reconnectTimerRef / countdownTimerRef (useReconnect.ts lines 76-77).
`pendingTimer` holds the delay of the armed reconnection timeout. -/
structure ControllerState where
  rstate : ReconnectState
  pendingTimer : Option ℚ
  countdownActive : Bool
deriving DecidableEq, Repr

/-- clearTimers (useReconnect.ts lines 116-125). -/
def clearTimersC (c : ControllerState) : ControllerState :=
  { c with pendingTimer := none, countdownActive := false }

/-- scheduleReconnection (useReconnect.ts lines 158-200): clear timers; if
attempts reached the maximum, set maxAttemptsReached and stop; otherwise
compute the next delay (initialDelay on the first attempt, else
calculateNextDelay of the previous delay with random draw `r`), advance the
transport, start the countdown (line 180, ceil of delay/1000 seconds) and
arm the reconnection timeout. -/
def scheduleReconnection (cfg : ReconnectConfig) (c : ControllerState) (r : ℚ) :
    ControllerState :=
  let c := clearTimersC c
  if cfg.maxAttempts ≤ c.rstate.attempts then
    { c with rstate := { c.rstate with isReconnecting := false, maxAttemptsReached := true } }
  else
    let nextDelay :=
      if c.rstate.attempts = 0 then cfg.initialDelay
      else calculateNextDelay cfg c.rstate.nextDelay r
    let nextTransport := getNextTransport c.rstate.currentTransport
    { rstate :=
        { c.rstate with
          isReconnecting := true
          attempts := c.rstate.attempts + 1
          nextDelay := nextDelay
          countdown := ⌈nextDelay / 1000⌉
          currentTransport := nextTransport }
      pendingTimer := some nextDelay
      countdownActive := true }

/-- The counter reset performed by startReconnection before it schedules
(useReconnect.ts lines 207-212). -/
def resetForStart (cfg : ReconnectConfig) (c : ControllerState) : ControllerState :=
  { c with rstate :=
      { c.rstate with
        attempts := 0
        nextDelay := cfg.initialDelay
        maxAttemptsReached := false } }

/-- startReconnection (useReconnect.ts lines 205-215). -/
def startReconnection (cfg : ReconnectConfig) (c : ControllerState) (r : ℚ) :
    ControllerState :=
  scheduleReconnection cfg (resetForStart cfg c) r

/-- stopReconnection (useReconnect.ts lines 220-227). -/
def stopReconnection (c : ControllerState) : ControllerState :=
  let c := clearTimersC c
  { c with rstate := { c.rstate with isReconnecting := false, countdown := 0 } }

/-- resetReconnection (useReconnect.ts lines 232-242), also the effect run
when the connection transitions to open (lines 289-300). -/
def resetReconnection (cfg : ReconnectConfig) (c : ControllerState) : ControllerState :=
  let c := clearTimersC c
  { c with rstate :=
      { c.rstate with
        isReconnecting := false
        attempts := 0
        nextDelay := cfg.initialDelay
        countdown := 0
        maxAttemptsReached := false } }

/-- The state forceReconnect installs before its immediate attempt
(useReconnect.ts lines 248-258). -/
def forceResetPhase (cfg : ReconnectConfig) (c : ControllerState) : ControllerState :=
  let c := clearTimersC c
  { c with rstate :=
      { c.rstate with
        isReconnecting := false
        attempts := 0
        nextDelay := cfg.initialDelay
        countdown := 0
        maxAttemptsReached := false } }

/-- forceReconnect (useReconnect.ts lines 247-267): clear timers, reset the
state, attempt an immediate reconnect on the hook's current transport
(`success` is the outcome of that await); on failure fall back to
startReconnection.  Returns the new controller state and the transport used
for the immediate attempt. -/
def forceReconnect (cfg : ReconnectConfig) (c : ControllerState) (success : Bool)
    (r : ℚ) : ControllerState × TransportType :=
  let c1 := forceResetPhase cfg c
  let attempted := c.rstate.currentTransport
  if success then (c1, attempted)
  else (startReconnection cfg c1 r, attempted)

/-- The events that can reach the controller: its public operations, the
firing of a pending reconnection timeout (with the success of the attempt it
runs), and the connection becoming open (useReconnect.ts lines 284-301).
scheduleReconnection itself is internal: it is reachable only through these. -/
inductive ControllerEvent where
  | start (r : ℚ) : ControllerEvent
  | stop : ControllerEvent
  | reset : ControllerEvent
  | force (success : Bool) (r : ℚ) : ControllerEvent
  | timerFire (success : Bool) (r : ℚ) : ControllerEvent
  | connOpened : ControllerEvent

/-- One controller step.  A timer can only fire while armed; on a failed
attempt the timeout callback calls scheduleReconnection again
(useReconnect.ts lines 183-190). -/
def controllerStep (cfg : ReconnectConfig) (c : ControllerState) :
    ControllerEvent → ControllerState
  | ControllerEvent.start r => startReconnection cfg c r
  | ControllerEvent.stop => stopReconnection c
  | ControllerEvent.reset => resetReconnection cfg c
  | ControllerEvent.force success r => (forceReconnect cfg c success r).1
  | ControllerEvent.timerFire success r =>
      match c.pendingTimer with
      | none => c
      | some _ =>
          if success then { c with pendingTimer := none }
          else scheduleReconnection cfg { c with pendingTimer := none } r
  | ControllerEvent.connOpened => resetReconnection cfg c

/-- Events other than startReconnection and forceReconnect. -/
def notStartOrForce : ControllerEvent → Prop
  | ControllerEvent.start _ => False
  | ControllerEvent.force _ _ => False
  | _ => True

/-! ## Rotation lemmas -/

theorem getNextTransport_websocket :
    getNextTransport TransportType.websocket = TransportType.sse := rfl

theorem getNextTransport_sse :
    getNextTransport TransportType.sse = TransportType.polling := rfl

theorem getNextTransport_polling :
    getNextTransport TransportType.polling = TransportType.websocket := rfl

theorem getNextTransport_cycle (t : TransportType) :
    getNextTransport (getNextTransport (getNextTransport t)) = t := by
  cases t <;> rfl

theorem attemptTransports_succ (n : ℕ) (t : TransportType) :
    attemptTransports (n + 1) t
      = getNextTransport t :: attemptTransports n (getNextTransport t) := rfl

theorem attemptTransports_count_step (t ty : TransportType) (n : ℕ) :
    (attemptTransports (n + 3) t).count ty = (attemptTransports n t).count ty + 1 := by
  rw [show n + 3 = (n + 2) + 1 from rfl, attemptTransports_succ,
    show n + 2 = (n + 1) + 1 from rfl, attemptTransports_succ, attemptTransports_succ,
    getNextTransport_cycle t]
  cases t <;> cases ty <;>
    simp +decide [List.count_cons, getNextTransport_websocket, getNextTransport_sse,
      getNextTransport_polling]

theorem attemptTransports_count_ge (N : ℕ) (t ty : TransportType) :
    N / 3 ≤ (attemptTransports N t).count ty := by
  induction N using Nat.strong_induction_on with
  | _ N ih =>
    match N with
    | 0 => simp
    | 1 => simp
    | 2 => simp
    | (n + 3) =>
      rw [show (n + 3) / 3 = n / 3 + 1 from by omega, attemptTransports_count_step]
      exact Nat.add_le_add_right (ih n (by omega) ) 1

/-! ## Delay computation lemmas -/

/-- The hook's initial state (useReconnect.ts lines 66-73) with the default
configuration and preferred transport websocket. -/
def initialControllerState : ControllerState :=
  { rstate :=
      { isReconnecting := false
        attempts := 0
        nextDelay := 1000
        countdown := 0
        currentTransport := TransportType.websocket
        maxAttemptsReached := false }
    pendingTimer := none
    countdownActive := false }

theorem baseOf_nonneg (cfg : ReconnectConfig) (d : ℚ) (hd : 0 ≤ d)
    (hm : 0 ≤ cfg.multiplier) (hmax : 0 ≤ cfg.maxDelay) : 0 ≤ baseOf cfg d :=
  le_min (mul_nonneg hd hm) hmax

theorem calculateNextDelay_eq_floor (cfg : ReconnectConfig) (d r : ℚ)
    (hj : cfg.jitter = true) :
    calculateNextDelay cfg d r
      = ((⌊baseOf cfg d + baseOf cfg d * cfg.jitterPercent * r⌋ : ℤ) : ℚ) := by
  simp [calculateNextDelay, baseOf, hj]

theorem calculateNextDelay_bounds (cfg : ReconnectConfig) (d r : ℚ)
    (hj : cfg.jitter = true) (hjp0 : 0 ≤ cfg.jitterPercent) (hjp1 : cfg.jitterPercent ≤ 1)
    (hd : 0 ≤ d) (hm : 0 ≤ cfg.multiplier) (hmax : 0 ≤ cfg.maxDelay)
    (hr1 : -1 ≤ r) (hr2 : r < 1) :
    baseOf cfg d - cfg.jitterPercent * baseOf cfg d - 1 < calculateNextDelay cfg d r ∧
    ((⌊baseOf cfg d - cfg.jitterPercent * baseOf cfg d⌋ : ℤ) : ℚ)
      ≤ calculateNextDelay cfg d r ∧
    calculateNextDelay cfg d r ≤ baseOf cfg d + cfg.jitterPercent * baseOf cfg d ∧
    0 ≤ calculateNextDelay cfg d r := by
  have hb : 0 ≤ baseOf cfg d := baseOf_nonneg cfg d hd hm hmax
  set b := baseOf cfg d with hbdef
  set x := b + b * cfg.jitterPercent * r with hxdef
  have hx1 : b - cfg.jitterPercent * b ≤ x := by
    have : 0 ≤ cfg.jitterPercent * b * (r + 1) :=
      mul_nonneg (mul_nonneg hjp0 hb) (by linarith)
    nlinarith [this]
  have hx2 : x ≤ b + cfg.jitterPercent * b := by
    have : 0 ≤ cfg.jitterPercent * b * (1 - r) :=
      mul_nonneg (mul_nonneg hjp0 hb) (by linarith)
    nlinarith [this]
  have hval : calculateNextDelay cfg d r = ((⌊x⌋ : ℤ) : ℚ) :=
    calculateNextDelay_eq_floor cfg d r hj
  have hlow : 0 ≤ b - cfg.jitterPercent * b := by nlinarith [mul_nonneg hb (show (0:ℚ) ≤ 1 - cfg.jitterPercent by linarith)]
  refine ⟨?_, ?_, ?_, ?_⟩
  · have := Int.sub_one_lt_floor x
    rw [hval]; linarith
  · rw [hval]
    exact_mod_cast Int.floor_le_floor hx1
  · have := Int.floor_le x
    rw [hval]; linarith
  · rw [hval]
    have : (0 : ℤ) ≤ ⌊x⌋ := Int.floor_nonneg.mpr (le_trans hlow hx1)
    exact_mod_cast this

theorem delaySeq_ge (rs : ℕ → ℚ) (hrs : ∀ n, -1 ≤ rs n ∧ rs n < 1) :
    ∀ n, (999 : ℚ) ≤ delaySeq defaultReconnectConfig rs n := by
  intro n
  induction n with
  | zero => norm_num [delaySeq, defaultReconnectConfig]
  | succ n ih =>
    have hd : (0 : ℚ) ≤ delaySeq defaultReconnectConfig rs n := by linarith
    have hb : (1998 : ℚ) ≤ baseOf defaultReconnectConfig (delaySeq defaultReconnectConfig rs n) := by
      refine le_min ?_ ?_
      · rw [show defaultReconnectConfig.multiplier = 2 from rfl]; linarith
      · norm_num [defaultReconnectConfig]
    have hband := calculateNextDelay_bounds defaultReconnectConfig
      (delaySeq defaultReconnectConfig rs n) (rs n) rfl (by norm_num [defaultReconnectConfig])
      (by norm_num [defaultReconnectConfig]) hd (by norm_num [defaultReconnectConfig])
      (by norm_num [defaultReconnectConfig]) (hrs n).1 (hrs n).2
    have hjp : defaultReconnectConfig.jitterPercent = 1/5 := rfl
    rw [show delaySeq defaultReconnectConfig rs (n+1)
        = calculateNextDelay defaultReconnectConfig (delaySeq defaultReconnectConfig rs n) (rs n)
      from rfl]
    have h1 := hband.1
    rw [hjp] at h1
    linarith

theorem baseSeq_mono (rs : ℕ → ℚ) (hrs : ∀ n, -1 ≤ rs n ∧ rs n < 1) (n : ℕ) :
    baseOf defaultReconnectConfig (delaySeq defaultReconnectConfig rs n)
        ≤ defaultReconnectConfig.maxDelay ∧
    baseOf defaultReconnectConfig (delaySeq defaultReconnectConfig rs n)
        ≤ baseOf defaultReconnectConfig (delaySeq defaultReconnectConfig rs (n + 1)) := by
  have hdn : (999 : ℚ) ≤ delaySeq defaultReconnectConfig rs n := delaySeq_ge rs hrs n
  have hd : (0 : ℚ) ≤ delaySeq defaultReconnectConfig rs n := by linarith
  have hb : (1998 : ℚ) ≤ baseOf defaultReconnectConfig (delaySeq defaultReconnectConfig rs n) := by
    refine le_min ?_ ?_
    · rw [show defaultReconnectConfig.multiplier = 2 from rfl]; linarith
    · norm_num [defaultReconnectConfig]
  have hbmax : baseOf defaultReconnectConfig (delaySeq defaultReconnectConfig rs n)
      ≤ defaultReconnectConfig.maxDelay := min_le_right _ _
  refine ⟨hbmax, ?_⟩
  have hband := calculateNextDelay_bounds defaultReconnectConfig
    (delaySeq defaultReconnectConfig rs n) (rs n) rfl (by norm_num [defaultReconnectConfig])
    (by norm_num [defaultReconnectConfig]) hd (by norm_num [defaultReconnectConfig])
    (by norm_num [defaultReconnectConfig]) (hrs n).1 (hrs n).2
  have hjp : defaultReconnectConfig.jitterPercent = 1/5 := rfl
  have h1 := hband.1
  rw [hjp] at h1
  have hnext : delaySeq defaultReconnectConfig rs (n+1)
      = calculateNextDelay defaultReconnectConfig (delaySeq defaultReconnectConfig rs n) (rs n) := rfl
  refine le_min ?_ ?_
  · rw [show baseOf defaultReconnectConfig (delaySeq defaultReconnectConfig rs n)
        = min (delaySeq defaultReconnectConfig rs n * 2) 30000 from rfl] at *
    rw [show (delaySeq defaultReconnectConfig rs (n+1)) * defaultReconnectConfig.multiplier
        = (delaySeq defaultReconnectConfig rs (n+1)) * 2 from rfl]
    rw [hnext]
    linarith
  · rw [show defaultReconnectConfig.maxDelay = 30000 from rfl] at hbmax
    exact hbmax

/-- C1 counterexample: with the shipped configuration (multiplier 2, max
30000 ms, jitter 20 percent), previous delay 1601 ms and random draw -1
(Math.random() = 0), the computed next delay is 2561 ms, strictly below the
lower edge base - 20 percent of base = 2561.6 ms of the band the claim
asserts, because the source floors the jittered value (Math.floor,
useReconnect.ts line 93). -/
theorem C1_jitter_band_counterexample :
    calculateNextDelay defaultReconnectConfig 1601 (-1)
      < baseOf defaultReconnectConfig 1601
        - defaultReconnectConfig.jitterPercent * baseOf defaultReconnectConfig 1601 := by
  have hbase : baseOf defaultReconnectConfig 1601 = 3202 := by
    norm_num [baseOf, defaultReconnectConfig]
  have hval : calculateNextDelay defaultReconnectConfig 1601 (-1)
      = ((⌊baseOf defaultReconnectConfig 1601
          + baseOf defaultReconnectConfig 1601 * defaultReconnectConfig.jitterPercent * (-1)⌋ : ℤ) : ℚ) :=
    calculateNextDelay_eq_floor defaultReconnectConfig 1601 (-1) rfl
  rw [hbase] at hval
  rw [show defaultReconnectConfig.jitterPercent = 1/5 from rfl] at hval
  have hfloor : (⌊(3202 : ℚ) + 3202 * (1/5) * (-1)⌋ : ℤ) = 2561 := by
    apply Int.floor_eq_iff.mpr
    constructor <;> norm_num
  rw [hfloor] at hval
  rw [hval, hbase, show defaultReconnectConfig.jitterPercent = 1/5 from rfl]
  norm_num

/-- C1 (amended): the first scheduled attempt's delay is exactly the
configured initial delay (no jitter is applied to it, so it sits inside the
initial-delay ± jitter band); every subsequent attempt's delay is the
integer floor of (previous delay * multiplier, capped at the maximum) plus a
jitter of up to ± jitterPercent of that capped base, so it lies in the
claimed band widened below by less than 1 ms (and at least the floor of the
band's lower edge); every computed delay is non-negative; and with the
shipped parameters the pre-jitter base sequence is non-decreasing and never
exceeds the cap. -/
theorem C1_delay_computation_amended
    (cfg : ReconnectConfig) (d r : ℚ)
    (hj : cfg.jitter = true) (hjp0 : 0 ≤ cfg.jitterPercent) (hjp1 : cfg.jitterPercent ≤ 1)
    (hd : 0 ≤ d) (hm : 0 ≤ cfg.multiplier) (hmax : 0 ≤ cfg.maxDelay)
    (hr1 : -1 ≤ r) (hr2 : r < 1) :
    ((∀ c : ControllerState, c.rstate.attempts = 0 → 0 < cfg.maxAttempts →
        (scheduleReconnection cfg c r).rstate.nextDelay = cfg.initialDelay ∧
        (scheduleReconnection cfg c r).pendingTimer = some cfg.initialDelay) ∧
      (∀ c : ControllerState, 0 < c.rstate.attempts → c.rstate.attempts < cfg.maxAttempts →
        (scheduleReconnection cfg c r).rstate.nextDelay
          = calculateNextDelay cfg c.rstate.nextDelay r) ∧
      (0 ≤ cfg.initialDelay →
        cfg.initialDelay - cfg.jitterPercent * cfg.initialDelay ≤ cfg.initialDelay ∧
        cfg.initialDelay ≤ cfg.initialDelay + cfg.jitterPercent * cfg.initialDelay)) ∧
    (calculateNextDelay cfg d r
        = ((⌊baseOf cfg d + baseOf cfg d * cfg.jitterPercent * r⌋ : ℤ) : ℚ) ∧
      baseOf cfg d - cfg.jitterPercent * baseOf cfg d - 1 < calculateNextDelay cfg d r ∧
      ((⌊baseOf cfg d - cfg.jitterPercent * baseOf cfg d⌋ : ℤ) : ℚ)
        ≤ calculateNextDelay cfg d r ∧
      calculateNextDelay cfg d r ≤ baseOf cfg d + cfg.jitterPercent * baseOf cfg d ∧
      0 ≤ calculateNextDelay cfg d r) ∧
    (∀ rs : ℕ → ℚ, (∀ n, -1 ≤ rs n ∧ rs n < 1) → ∀ n : ℕ,
      baseOf defaultReconnectConfig (delaySeq defaultReconnectConfig rs n)
          ≤ defaultReconnectConfig.maxDelay ∧
      baseOf defaultReconnectConfig (delaySeq defaultReconnectConfig rs n)
          ≤ baseOf defaultReconnectConfig (delaySeq defaultReconnectConfig rs (n + 1))) := by
  refine ⟨⟨?_, ?_, ?_⟩, ?_, ?_⟩
  · intro c hc0 hcmax
    have hlt : ¬ cfg.maxAttempts ≤ c.rstate.attempts := by omega
    have hne0 : ¬ cfg.maxAttempts = 0 := by omega
    constructor <;> simp [scheduleReconnection, clearTimersC, hlt, hc0, hne0]
  · intro c hc0 hcmax
    have hlt : ¬ cfg.maxAttempts ≤ c.rstate.attempts := by omega
    have hne : ¬ c.rstate.attempts = 0 := by omega
    simp [scheduleReconnection, clearTimersC, hlt, hne]
  · intro hi
    have : 0 ≤ cfg.jitterPercent * cfg.initialDelay := mul_nonneg hjp0 hi
    constructor <;> linarith
  · exact ⟨calculateNextDelay_eq_floor cfg d r hj,
      calculateNextDelay_bounds cfg d r hj hjp0 hjp1 hd hm hmax hr1 hr2⟩
  · intro rs hrs n
    exact baseSeq_mono rs hrs n

/-- Witness for C1_delay_computation_amended at the shipped configuration,
previous delay 1000 and random draw 0. -/
theorem C1_delay_computation_amended_witness :
    0 ≤ calculateNextDelay defaultReconnectConfig 1000 0 ∧
    calculateNextDelay defaultReconnectConfig 1000 0
      ≤ baseOf defaultReconnectConfig 1000
        + defaultReconnectConfig.jitterPercent * baseOf defaultReconnectConfig 1000 := by
  have h := C1_delay_computation_amended defaultReconnectConfig 1000 0 rfl
    (by norm_num [defaultReconnectConfig]) (by norm_num [defaultReconnectConfig])
    (by norm_num) (by norm_num [defaultReconnectConfig])
    (by norm_num [defaultReconnectConfig]) (by norm_num) (by norm_num)
  exact ⟨h.2.1.2.2.2.2, h.2.1.2.2.2.1⟩

/-- C2: the transport successor cycles websocket → sse → polling →
websocket (three applications are the identity); every scheduled attempt
below the attempt cap advances to the successor transport; and a run of N
consecutively scheduled attempts, which starts from the successor of the
transport active when reconnection began, visits each of the three
transport types at least ⌊N/3⌋ times. -/
theorem C2_transport_rotation :
    (∀ t, getNextTransport (getNextTransport (getNextTransport t)) = t) ∧
    (∀ (cfg : ReconnectConfig) (c : ControllerState) (r : ℚ),
      c.rstate.attempts < cfg.maxAttempts →
      (scheduleReconnection cfg c r).rstate.currentTransport
        = getNextTransport c.rstate.currentTransport) ∧
    (∀ (N : ℕ) (t ty : TransportType), N / 3 ≤ (attemptTransports N t).count ty) := by
  refine ⟨getNextTransport_cycle, ?_, attemptTransports_count_ge⟩
  intro cfg c r h
  have hlt : ¬ cfg.maxAttempts ≤ c.rstate.attempts := by omega
  simp [scheduleReconnection, clearTimersC, hlt]

/-- Witness for C2_transport_rotation: scheduling from the initial state
advances websocket to sse, and 7 attempts starting from websocket visit
polling at least twice. -/
theorem C2_transport_rotation_witness :
    (scheduleReconnection defaultReconnectConfig initialControllerState 0).rstate.currentTransport
      = getNextTransport initialControllerState.rstate.currentTransport ∧
    2 ≤ (attemptTransports 7 TransportType.websocket).count TransportType.polling := by
  refine ⟨C2_transport_rotation.2.1 defaultReconnectConfig initialControllerState 0 (by decide), ?_⟩
  have h := C2_transport_rotation.2.2 7 TransportType.websocket TransportType.polling
  simpa using h

/-! ## Controller trace lemmas -/

theorem step_no_arm (cfg : ReconnectConfig) (c : ControllerState) (e : ControllerEvent)
    (hc : c.pendingTimer = none) (he : notStartOrForce e) :
    (controllerStep cfg c e).pendingTimer = none := by
  cases e with
  | start r => exact he.elim
  | force s r => exact he.elim
  | stop => simp [controllerStep, stopReconnection, clearTimersC]
  | reset => simp [controllerStep, resetReconnection, clearTimersC]
  | connOpened => simp [controllerStep, resetReconnection, clearTimersC]
  | timerFire s r => simp [controllerStep, hc]

theorem step_no_arm_maxed (cfg : ReconnectConfig) (c : ControllerState)
    (e : ControllerEvent) (hmax : cfg.maxAttempts ≤ c.rstate.attempts)
    (he : notStartOrForce e) :
    (controllerStep cfg c e).pendingTimer = none := by
  cases e with
  | start r => exact he.elim
  | force s r => exact he.elim
  | stop => simp [controllerStep, stopReconnection, clearTimersC]
  | reset => simp [controllerStep, resetReconnection, clearTimersC]
  | connOpened => simp [controllerStep, resetReconnection, clearTimersC]
  | timerFire ok r =>
    show (match c.pendingTimer with
      | none => c
      | some _ =>
          if ok then { c with pendingTimer := none }
          else scheduleReconnection cfg { c with pendingTimer := none } r).pendingTimer
      = none
    cases hp : c.pendingTimer with
    | none => simpa using hp
    | some d =>
      cases ok with
      | true => rfl
      | false => simp [scheduleReconnection, clearTimersC, hmax]

theorem no_arm_trace (cfg : ReconnectConfig) :
    ∀ (es : List ControllerEvent) (c : ControllerState), c.pendingTimer = none →
      (∀ e ∈ es, notStartOrForce e) →
      (es.foldl (controllerStep cfg) c).pendingTimer = none := by
  intro es
  induction es with
  | nil => intro c hc _; simpa using hc
  | cons e es ih =>
    intro c hc hall
    simp only [List.foldl_cons]
    exact ih _ (step_no_arm cfg c e hc (hall e (by simp)))
      (fun x hx => hall x (by simp [hx]))

/-- A controller state whose attempts counter has reached the default
maximum, as produced by exhausting the attempt budget. -/
def maxedControllerState : ControllerState :=
  { rstate :=
      { isReconnecting := true
        attempts := 10
        nextDelay := 30000
        countdown := 0
        currentTransport := TransportType.websocket
        maxAttemptsReached := false }
    pendingTimer := none
    countdownActive := false }

/-- C3: whenever the attempts counter has reached the configured maximum,
scheduling sets maxAttemptsReached, clears isReconnecting and arms no timer
(neither the reconnection timeout nor the countdown interval); from any
state with no pending timer, a trace of events that contains no
startReconnection and no forceReconnect never arms a timer; from a
max-attempts state even an in-flight timer leaves no timer pending after any
single non-start non-force event; and both
startReconnection and forceReconnect reset attempts to 0 and clear the
maxAttemptsReached flag before scheduling resumes. -/
theorem C3_max_attempts_termination (cfg : ReconnectConfig) :
    (∀ (c : ControllerState) (r : ℚ), cfg.maxAttempts ≤ c.rstate.attempts →
      (scheduleReconnection cfg c r).rstate.maxAttemptsReached = true ∧
      (scheduleReconnection cfg c r).rstate.isReconnecting = false ∧
      (scheduleReconnection cfg c r).pendingTimer = none ∧
      (scheduleReconnection cfg c r).countdownActive = false) ∧
    (∀ (c : ControllerState) (es : List ControllerEvent), c.pendingTimer = none →
      (∀ e ∈ es, notStartOrForce e) →
      (es.foldl (controllerStep cfg) c).pendingTimer = none) ∧
    (∀ (c : ControllerState) (e : ControllerEvent),
      cfg.maxAttempts ≤ c.rstate.attempts → notStartOrForce e →
      (controllerStep cfg c e).pendingTimer = none) ∧
    (∀ (c : ControllerState) (r : ℚ),
      startReconnection cfg c r = scheduleReconnection cfg (resetForStart cfg c) r ∧
      (resetForStart cfg c).rstate.attempts = 0 ∧
      (resetForStart cfg c).rstate.maxAttemptsReached = false) ∧
    (∀ c : ControllerState,
      (forceResetPhase cfg c).rstate.attempts = 0 ∧
      (forceResetPhase cfg c).rstate.maxAttemptsReached = false) := by
  refine ⟨?_, fun c es => no_arm_trace cfg es c, step_no_arm_maxed cfg, ?_, ?_⟩
  · intro c r h
    refine ⟨?_, ?_, ?_, ?_⟩ <;> simp [scheduleReconnection, clearTimersC, h]
  · intro c r
    exact ⟨rfl, rfl, rfl⟩
  · intro c
    exact ⟨rfl, rfl⟩

/-- Witness for C3_max_attempts_termination at the default configuration
and a state with 10 attempts. -/
theorem C3_max_attempts_termination_witness :
    (scheduleReconnection defaultReconnectConfig maxedControllerState 0).rstate.maxAttemptsReached
        = true ∧
    (scheduleReconnection defaultReconnectConfig maxedControllerState 0).pendingTimer = none ∧
    (([ControllerEvent.stop, ControllerEvent.reset,
        ControllerEvent.timerFire true 0, ControllerEvent.connOpened].foldl
      (controllerStep defaultReconnectConfig) maxedControllerState)).pendingTimer = none := by
  have h := C3_max_attempts_termination defaultReconnectConfig
  refine ⟨(h.1 maxedControllerState 0 (by decide)).1,
    (h.1 maxedControllerState 0 (by decide)).2.2.1, ?_⟩
  refine h.2.1 maxedControllerState _ rfl ?_
  intro e he
  fin_cases he <;> exact trivial

/-- C6: forceReconnect, from any prior state, clears the pending timers and
installs a state with attempts 0, maxAttemptsReached false and nextDelay
equal to the initial delay; the immediate reconnect attempt uses the current
transport type; if it succeeds the controller stays in that reset state, and
if it fails the normal scheduled reconnection process (startReconnection) is
started, arming a timer with the initial delay and advancing the transport. -/
theorem C6_force_reconnect (cfg : ReconnectConfig) (c : ControllerState)
    (success : Bool) (r : ℚ) :
    (forceReconnect cfg c success r).2 = c.rstate.currentTransport ∧
    ((forceResetPhase cfg c).pendingTimer = none ∧
      (forceResetPhase cfg c).countdownActive = false ∧
      (forceResetPhase cfg c).rstate.attempts = 0 ∧
      (forceResetPhase cfg c).rstate.maxAttemptsReached = false ∧
      (forceResetPhase cfg c).rstate.nextDelay = cfg.initialDelay) ∧
    (success = true → (forceReconnect cfg c success r).1 = forceResetPhase cfg c) ∧
    (success = false →
      (forceReconnect cfg c success r).1 = startReconnection cfg (forceResetPhase cfg c) r ∧
      (0 < cfg.maxAttempts →
        (forceReconnect cfg c success r).1.pendingTimer = some cfg.initialDelay ∧
        (forceReconnect cfg c success r).1.rstate.attempts = 1 ∧
        (forceReconnect cfg c success r).1.rstate.isReconnecting = true ∧
        (forceReconnect cfg c success r).1.rstate.maxAttemptsReached = false ∧
        (forceReconnect cfg c success r).1.rstate.currentTransport
          = getNextTransport c.rstate.currentTransport)) := by
  refine ⟨?_, ⟨rfl, rfl, rfl, rfl, rfl⟩, ?_, ?_⟩
  · cases success <;> rfl
  · intro hs; subst hs; rfl
  · intro hs; subst hs
    refine ⟨rfl, ?_⟩
    intro hmax
    have hne0 : ¬ cfg.maxAttempts = 0 := by omega
    refine ⟨?_, ?_, ?_, ?_, ?_⟩ <;>
      simp [forceReconnect, forceResetPhase, startReconnection, resetForStart,
        scheduleReconnection, clearTimersC, hne0]

/-- Witness for C6_force_reconnect: forcing from the exhausted state with a
failing immediate attempt re-arms a timer at the initial delay. -/
theorem C6_force_reconnect_witness :
    (forceReconnect defaultReconnectConfig maxedControllerState false 0).2
        = maxedControllerState.rstate.currentTransport ∧
    (forceReconnect defaultReconnectConfig maxedControllerState false 0).1.pendingTimer
        = some defaultReconnectConfig.initialDelay ∧
    (forceReconnect defaultReconnectConfig maxedControllerState false 0).1.rstate.attempts = 1 := by
  have h := C6_force_reconnect defaultReconnectConfig maxedControllerState false 0
  have h2 := (h.2.2.2 rfl).2 (by decide)
  exact ⟨h.1, h2.1, h2.2.1⟩

/-! ## Session coordinator: status-change handling
(src/context/SessionContext.tsx lines 104-112 and 222-257).  Date.now() is
an explicit integer input; the refs around the callback become explicit
context fields. -/

/-- MIN_CONNECTION_INTERVAL_MS (SessionContext.tsx line 108). -/
def MIN_CONNECTION_INTERVAL_MS : ℤ := 2000

/-- The coordinator context read by handleStatusChange: config presence,
the fallback flag of config.transport.enableFallback, the
isManualDisconnectRef / previousStatusRef / lastConnectionAttemptRef refs,
and the current clock reading. -/
structure StatusCtx where
  sessionConfigPresent : Bool
  enableFallback : Bool
  isManualDisconnect : Bool
  previousStatus : ConnectionStatus
  lastConnectionAttempt : ℤ
  now : ℤ
deriving DecidableEq, Repr

/-- The observable effect of one handleStatusChange call. -/
structure StatusChangeResult where
  startedReconnection : Bool
  previousStatusAfter : ConnectionStatus
  lastConnectionAttemptAfter : ℤ
  statusAfter : ConnectionStatus
deriving DecidableEq, Repr

/-- handleStatusChange (SessionContext.tsx lines 222-257): update the
previous-status ref and the connection state, and start reconnection
exactly when the six guard conditions hold, recording the attempt time. -/
def handleStatusChange (ctx : StatusCtx) (status : ConnectionStatus) : StatusChangeResult :=
  let previousStatus := ctx.previousStatus
  let timeSinceLastAttempt := ctx.now - ctx.lastConnectionAttempt
  let triggered :=
    (decide (status = ConnectionStatus.closed) || decide (status = ConnectionStatus.error)) &&
    ctx.sessionConfigPresent &&
    ctx.enableFallback &&
    !ctx.isManualDisconnect &&
    decide (previousStatus = ConnectionStatus.opened) &&
    decide (MIN_CONNECTION_INTERVAL_MS ≤ timeSinceLastAttempt)
  { startedReconnection := triggered
    previousStatusAfter := status
    lastConnectionAttemptAfter := if triggered then ctx.now else ctx.lastConnectionAttempt
    statusAfter := status }

/-- C4: handleStatusChange starts reconnection scheduling iff the new status
is closed or error, a session config is present, fallback is enabled, no
manual disconnect is flagged, the previously observed status was open, and
at least 2000 ms elapsed since the last recorded connection attempt; and of
two connection-loss events within 500 ms of each other only the first
starts a reconnection sequence. -/
theorem C4_status_change_guard :
    (∀ (ctx : StatusCtx) (status : ConnectionStatus),
      (handleStatusChange ctx status).startedReconnection = true ↔
        ((status = ConnectionStatus.closed ∨ status = ConnectionStatus.error) ∧
          ctx.sessionConfigPresent = true ∧
          ctx.enableFallback = true ∧
          ctx.isManualDisconnect = false ∧
          ctx.previousStatus = ConnectionStatus.opened ∧
          MIN_CONNECTION_INTERVAL_MS ≤ ctx.now - ctx.lastConnectionAttempt)) ∧
    (∀ (ctx : StatusCtx) (s₁ s₂ : ConnectionStatus) (δ : ℤ),
      (s₁ = ConnectionStatus.closed ∨ s₁ = ConnectionStatus.error) →
      (s₂ = ConnectionStatus.closed ∨ s₂ = ConnectionStatus.error) →
      0 ≤ δ → δ ≤ 500 →
      (handleStatusChange ctx s₁).startedReconnection = true →
      (handleStatusChange
        { ctx with
          previousStatus := (handleStatusChange ctx s₁).previousStatusAfter
          lastConnectionAttempt := (handleStatusChange ctx s₁).lastConnectionAttemptAfter
          now := ctx.now + δ } s₂).startedReconnection = false) := by
  have hiff : ∀ (ctx : StatusCtx) (status : ConnectionStatus),
      (handleStatusChange ctx status).startedReconnection = true ↔
        ((status = ConnectionStatus.closed ∨ status = ConnectionStatus.error) ∧
          ctx.sessionConfigPresent = true ∧
          ctx.enableFallback = true ∧
          ctx.isManualDisconnect = false ∧
          ctx.previousStatus = ConnectionStatus.opened ∧
          MIN_CONNECTION_INTERVAL_MS ≤ ctx.now - ctx.lastConnectionAttempt) := by
    intro ctx status
    simp [handleStatusChange, Bool.and_eq_true, Bool.or_eq_true, beq_iff_eq,
      decide_eq_true_eq, Bool.not_eq_true']
    tauto
  refine ⟨hiff, ?_⟩
  intro ctx s₁ s₂ δ hs₁ hs₂ hδ0 hδ1 htrig
  rcases Bool.eq_false_or_eq_true
    ((handleStatusChange
      { ctx with
        previousStatus := (handleStatusChange ctx s₁).previousStatusAfter
        lastConnectionAttempt := (handleStatusChange ctx s₁).lastConnectionAttemptAfter
        now := ctx.now + δ } s₂).startedReconnection) with ht | hf
  case inr => exact hf
  · exfalso
    have h2 := (hiff _ s₂).mp ht
    have hprev : (handleStatusChange ctx s₁).previousStatusAfter = s₁ := rfl
    have : s₁ = ConnectionStatus.opened := by
      have := h2.2.2.2.2.1
      simpa [hprev] using this
    rcases hs₁ with h | h <;> simp [h] at this

/-- Witness for C4_status_change_guard: with all guards satisfied the first
loss event triggers, and a second loss event 500 ms later does not. -/
theorem C4_status_change_guard_witness :
    (handleStatusChange
      { sessionConfigPresent := true, enableFallback := true, isManualDisconnect := false,
        previousStatus := ConnectionStatus.opened, lastConnectionAttempt := 0,
        now := 10000 } ConnectionStatus.closed).startedReconnection = true ∧
    (handleStatusChange
      { sessionConfigPresent := true, enableFallback := true, isManualDisconnect := false,
        previousStatus := ConnectionStatus.closed, lastConnectionAttempt := 10000,
        now := 10500 } ConnectionStatus.error).startedReconnection = false := by
  constructor
  · exact (C4_status_change_guard.1 _ ConnectionStatus.closed).mpr
      (by refine ⟨Or.inl rfl, rfl, rfl, rfl, rfl, ?_⟩; norm_num [MIN_CONNECTION_INTERVAL_MS])
  · exact C4_status_change_guard.2
      { sessionConfigPresent := true, enableFallback := true, isManualDisconnect := false,
        previousStatus := ConnectionStatus.opened, lastConnectionAttempt := 0, now := 10000 }
      ConnectionStatus.closed ConnectionStatus.error 500 (Or.inl rfl) (Or.inr rfl)
      (by norm_num) (by norm_num)
      ((C4_status_change_guard.1 _ ConnectionStatus.closed).mpr
        (by refine ⟨Or.inl rfl, rfl, rfl, rfl, rfl, ?_⟩; norm_num [MIN_CONNECTION_INTERVAL_MS]))

/-! ## Error classification (src/utils/security.ts lines 125-156,
src/utils/errorHandler.ts lines 26-40) and the coordinator's transport
error handler (src/context/SessionContext.tsx lines 267-296).
The regex patterns of the source are substring tests (with /i modelled by
lowercasing) except invalid.*token and expired.*token, where .* matches any
run of non-newline characters. -/

/-- Lowercased character list of a string (models a case-insensitive
regex test). -/
def lowerChars (s : String) : List Char := s.toList.map Char.toLower

/-- Does `pat` occur as a contiguous run inside the list (a literal regex
such as /auth/)? -/
def containsSeq (pat : List Char) : List Char → Bool
  | [] => pat.isEmpty
  | c :: cs => pat.isPrefixOf (c :: cs) || containsSeq pat cs

/-- After a greedy-or-lazy run of non-newline characters, does `pat` start
here (the tail of a regex a.*b)? -/
def afterDotStar (pat : List Char) : List Char → Bool
  | [] => pat.isEmpty
  | c :: cs => pat.isPrefixOf (c :: cs) || (!(c == Char.ofNat 10) && afterDotStar pat cs)

/-- Does the regex a.*b match anywhere in the list? -/
def seqMatch (a b : List Char) : List Char → Bool
  | [] => a.isEmpty && afterDotStar b []
  | c :: cs =>
      (a.isPrefixOf (c :: cs) && afterDotStar b ((c :: cs).drop a.length)) ||
      seqMatch a b cs

/-- isAuthenticationError (security.ts lines 125-138): any of the
authentication patterns matches the message text. -/
def isAuthenticationError (msg : String) : Bool :=
  let l := lowerChars msg
  containsSeq ("auth".toList) l ||
  containsSeq ("unauthorized".toList) l ||
  containsSeq ("forbidden".toList) l ||
  containsSeq ("401".toList) msg.toList ||
  containsSeq ("403".toList) msg.toList ||
  seqMatch ("invalid".toList) ("token".toList) l ||
  seqMatch ("expired".toList) ("token".toList) l

/-- isNetworkError (security.ts lines 143-156). -/
def isNetworkError (msg : String) : Bool :=
  let l := lowerChars msg
  containsSeq ("network".toList) l ||
  containsSeq ("connection".toList) l ||
  containsSeq ("timeout".toList) l ||
  containsSeq ("offline".toList) l ||
  containsSeq ("unreachable".toList) l ||
  containsSeq ("econnrefused".toList) l ||
  containsSeq ("etimedout".toList) l

/-- getUserFriendlyErrorMessage (security.ts lines 161-186). -/
def getUserFriendlyErrorMessage (msg : String) : String :=
  if isAuthenticationError msg then
    "Authentication failed. Please check your credentials and try again."
  else if isNetworkError msg then
    "Network connection failed. Please check your internet connection and try again."
  else if containsSeq ("timeout".toList) (lowerChars msg) then
    "Connection timed out. The server may be unavailable."
  else if containsSeq ("websocket".toList) (lowerChars msg) then
    "WebSocket connection failed. Trying alternative connection method..."
  else if msg = "" then
    "An unexpected error occurred. Please try again."
  else msg

/-- interface HandledError (errorHandler.ts lines 13-21). -/
structure HandledError where
  message : String
  userMessage : String
  isAuthError : Bool
  isNetworkError : Bool
  shouldRetry : Bool
  shouldPreventReconnection : Bool
deriving DecidableEq, Repr

/-- handleError (errorHandler.ts lines 26-40): the single, central
classification of an error message. -/
def handleError (msg : String) : HandledError :=
  let isAuth := isAuthenticationError msg
  let isNetwork := isNetworkError msg
  { message := msg
    userMessage := getUserFriendlyErrorMessage msg
    isAuthError := isAuth
    isNetworkError := isNetwork
    shouldRetry := isNetwork && !isAuth
    shouldPreventReconnection := isAuth }

/-- The observable effect of handleTransportError. -/
structure TransportErrorOutcome where
  stoppedReconnection : Bool
  stateError : String
  appendedErrorCode : String
  appendedUserMessage : String
deriving DecidableEq, Repr

/-- handleTransportError (SessionContext.tsx lines 267-296): classify once
via handleError, set the state error to the user message, append a synthetic
error message (AUTH_ERROR or TRANSPORT_ERROR), and if the classification
says to prevent reconnection, stop the scheduled reconnection and pin the
update-credentials message into the state. -/
def handleTransportError (msg : String) : TransportErrorOutcome :=
  let handled := handleError msg
  let code := if handled.isAuthError then "AUTH_ERROR" else "TRANSPORT_ERROR"
  if handled.shouldPreventReconnection then
    { stoppedReconnection := true
      stateError := "Authentication failed. Please update your credentials and try again."
      appendedErrorCode := code
      appendedUserMessage := handled.userMessage }
  else
    { stoppedReconnection := false
      stateError := handled.userMessage
      appendedErrorCode := code
      appendedUserMessage := handled.userMessage }

/-- C5: an error whose message matches an authentication pattern is
classified with shouldPreventReconnection, the transport error handler then
stops any scheduled reconnection (stopReconnection clears the timers) and
pins the update-credentials message; an error matching only a network
pattern is classified retryable and does not stop reconnection. -/
theorem C5_error_classification (msg : String) :
    (isAuthenticationError msg = true →
      (handleError msg).shouldPreventReconnection = true ∧
      (handleTransportError msg).stoppedReconnection = true ∧
      (handleTransportError msg).stateError
        = "Authentication failed. Please update your credentials and try again." ∧
      (∀ c : ControllerState, (stopReconnection c).pendingTimer = none ∧
        (stopReconnection c).rstate.isReconnecting = false)) ∧
    (isAuthenticationError msg = false → isNetworkError msg = true →
      (handleError msg).shouldRetry = true ∧
      (handleTransportError msg).stoppedReconnection = false) := by
  constructor
  · intro h
    refine ⟨?_, ?_, ?_, fun c => ⟨rfl, rfl⟩⟩ <;>
      simp [handleError, handleTransportError, h]
  · intro h hn
    constructor <;> simp [handleError, handleTransportError, h, hn]

/-- Witness for C5_error_classification on the messages
"401 unauthorized" (authentication) and "connection timeout" (network). -/
theorem C5_error_classification_witness :
    (handleTransportError "401 unauthorized").stoppedReconnection = true ∧
    (handleError "connection timeout").shouldRetry = true := by
  refine ⟨((C5_error_classification "401 unauthorized").1 (by decide)).2.1, ?_⟩
  exact ((C5_error_classification "connection timeout").2 (by decide) (by decide)).1

/-! ## Bounded message ring (src/context/SessionContext.tsx lines 182-205,
src/config.ts lines 50-53).  The message payload type is abstract: addMessage
never inspects or alters a stored message. -/

/-- addMessage (SessionContext.tsx lines 182-193): append, then if the list
exceeds config.performance.maxMessages, keep the newest maxMessages entries
(slice from the overflow index). -/
def addMessage {α : Type} (maxMessages : ℕ) (prevMessages : List α) (message : α) :
    List α :=
  let newMessages := prevMessages ++ [message]
  if maxMessages < newMessages.length then
    newMessages.drop (newMessages.length - maxMessages)
  else
    newMessages

/-- The message list after a whole sequence of appends, starting empty. -/
def addAll {α : Type} (maxMessages : ℕ) (msgs : List α) : List α :=
  msgs.foldl (addMessage maxMessages) []

theorem addMessage_eq_drop {α : Type} (maxMessages : ℕ) (l : List α) (m : α) :
    addMessage maxMessages l m = (l ++ [m]).drop ((l.length + 1) - maxMessages) := by
  show (if maxMessages < (l ++ [m]).length
      then (l ++ [m]).drop ((l ++ [m]).length - maxMessages) else l ++ [m])
    = (l ++ [m]).drop ((l.length + 1) - maxMessages)
  have hlen : (l ++ [m]).length = l.length + 1 := by simp
  rw [hlen]
  by_cases h : maxMessages < l.length + 1
  · rw [if_pos h]
  · rw [if_neg h, Nat.sub_eq_zero_of_le (by omega), List.drop_zero]

theorem addAll_general {α : Type} (maxMessages : ℕ) :
    ∀ (ms acc : List α), acc.length ≤ maxMessages →
      ms.foldl (addMessage maxMessages) acc
        = (acc ++ ms).drop ((acc ++ ms).length - maxMessages) := by
  intro ms
  induction ms with
  | nil =>
    intro acc h
    simp [Nat.sub_eq_zero_of_le h]
  | cons m ms ih =>
    intro acc h
    simp only [List.foldl_cons]
    have hlen : (addMessage maxMessages acc m).length ≤ maxMessages := by
      rw [addMessage_eq_drop]
      simp only [List.length_drop, List.length_append, List.length_cons, List.length_nil]
      omega
    rw [ih (addMessage maxMessages acc m) hlen, addMessage_eq_drop]
    have hd : (acc.length + 1) - maxMessages ≤ (acc ++ [m]).length := by
      simp only [List.length_append, List.length_cons, List.length_nil]
      omega
    rw [← List.drop_append_of_le_length hd, List.drop_drop]
    have hlist : acc ++ [m] ++ ms = acc ++ m :: ms := by
      rw [List.append_assoc, List.singleton_append]
    rw [hlist]
    congr 1
    simp only [List.length_drop, List.length_append, List.length_cons, List.length_nil]
    omega

/-- C9: after every sequence of appends the coordinator's message list is
exactly the most recent suffix (of length at most the configured maximum)
of all messages appended so far — in order, unmodified, oldest evicted
first — and each append leaves the new message at the end. -/
theorem C9_message_ring_buffer {α : Type} (maxMessages : ℕ) (hmax : 1 ≤ maxMessages) :
    (∀ ms : List α, addAll maxMessages ms = ms.drop (ms.length - maxMessages)) ∧
    (∀ ms : List α, (addAll maxMessages ms).length ≤ maxMessages) ∧
    (∀ (l : List α) (m : α), (addMessage maxMessages l m).getLast? = some m) ∧
    (∀ (l : List α) (m : α),
      addMessage maxMessages l m = (l ++ [m]).drop ((l.length + 1) - maxMessages)) := by
  have h1 : ∀ ms : List α, addAll maxMessages ms = ms.drop (ms.length - maxMessages) := by
    intro ms
    have := addAll_general maxMessages ms [] (by simp)
    simpa [addAll] using this
  refine ⟨h1, ?_, ?_, addMessage_eq_drop maxMessages⟩
  · intro ms
    rw [h1 ms]
    simp only [List.length_drop]
    omega
  · intro l m
    rw [addMessage_eq_drop,
      List.drop_append_of_le_length (by omega : (l.length + 1) - maxMessages ≤ l.length)]
    exact List.getLast?_concat _

/-- Witness for C9_message_ring_buffer at the default capacity 1000. -/
theorem C9_message_ring_buffer_witness :
    addAll 1000 [0, 1, 2] = [0, 1, 2] ∧
    (addMessage 1000 [5, 6] 7).getLast? = some 7 := by
  have h := C9_message_ring_buffer (α := ℕ) 1000 (by norm_num)
  exact ⟨by simpa using h.1 [0, 1, 2], h.2.2.1 [5, 6] 7⟩

/-! ## Transport disconnect (src/adapters/WebSocketTransport.ts lines
102-115, src/adapters/EventSourceTransport.ts lines 76-86,
src/adapters/PollingTransport.ts lines 52-76).  Each disconnect is
straight-line code with no throw path; the model returns the new adapter
state together with the list of statuses emitted during the call.  The
polling transport's best-effort close request to the server may succeed or
fail; its outcome is the oracle `closeOk` and a failure is caught and only
logged (PollingTransport.ts lines 66-71). -/

/-- Mutable fields of WebSocketTransport relevant to disconnect. -/
structure WSTransportState where
  wsPresent : Bool
  wsOpen : Bool
  connectionTimeout : Bool
deriving DecidableEq, Repr

/-- WebSocketTransport.isConnected (lines 164-166). -/
def wsIsConnected (s : WSTransportState) : Bool := s.wsPresent && s.wsOpen

/-- WebSocketTransport.disconnect (lines 102-115): clear the connection
timeout, close and drop the socket if present, then emit "closed". -/
def wsDisconnect (s : WSTransportState) : WSTransportState × List ConnectionStatus :=
  let s1 := { s with connectionTimeout := false }
  let s2 := if s1.wsPresent then { s1 with wsPresent := false, wsOpen := false } else s1
  (s2, [ConnectionStatus.closed])

/-- Mutable fields of EventSourceTransport relevant to disconnect. -/
structure ESTransportState where
  esPresent : Bool
  esOpen : Bool
  sessionId : Option String
  isManualClose : Bool
deriving DecidableEq, Repr

/-- EventSourceTransport.isConnected (lines 150-152). -/
def esIsConnected (s : ESTransportState) : Bool := s.esPresent && s.esOpen

/-- EventSourceTransport.disconnect (lines 76-86). -/
def esDisconnect (s : ESTransportState) : ESTransportState × List ConnectionStatus :=
  let s1 := { s with isManualClose := true }
  let s2 := if s1.esPresent then { s1 with esPresent := false, esOpen := false } else s1
  ({ s2 with sessionId := none }, [ConnectionStatus.closed])

/-- Mutable fields of PollingTransport relevant to disconnect. -/
structure PollTransportState where
  connected : Bool
  sessionId : Option String
  pollingActive : Bool
  abortArmed : Bool
deriving DecidableEq, Repr

/-- PollingTransport.isConnected (lines 140-142). -/
def pollIsConnected (s : PollTransportState) : Bool := s.connected && s.sessionId.isSome

/-- PollingTransport.disconnect (lines 52-76): clear connected, stop the
poll interval, abort in-flight requests, best-effort close the server-side
session (outcome `closeOk`, failure caught), null the session id, emit
"closed". -/
def pollDisconnect (s : PollTransportState) (closeOk : Bool) :
    PollTransportState × List ConnectionStatus :=
  let _ := s
  let _ := closeOk
  ({ connected := false, sessionId := none, pollingActive := false, abortArmed := false },
    [ConnectionStatus.closed])

/-- C8: for each transport implementation and every starting state,
disconnect completes (the embedding is a total function: no throw path
exists in the source, and the polling close failure is caught), emits
exactly one "closed" status, leaves the transport not connected, and a
second disconnect behaves identically — disconnect is idempotent. -/
theorem C8_disconnect_idempotent (ws : WSTransportState) (es : ESTransportState)
    (p : PollTransportState) (closeOk closeOk₂ : Bool) :
    ((wsDisconnect ws).2 = [ConnectionStatus.closed] ∧
      wsIsConnected (wsDisconnect ws).1 = false ∧
      (wsDisconnect (wsDisconnect ws).1).2 = [ConnectionStatus.closed] ∧
      (wsDisconnect (wsDisconnect ws).1).1 = (wsDisconnect ws).1) ∧
    ((esDisconnect es).2 = [ConnectionStatus.closed] ∧
      esIsConnected (esDisconnect es).1 = false ∧
      (esDisconnect (esDisconnect es).1).2 = [ConnectionStatus.closed] ∧
      (esDisconnect (esDisconnect es).1).1 = (esDisconnect es).1) ∧
    ((pollDisconnect p closeOk).2 = [ConnectionStatus.closed] ∧
      pollIsConnected (pollDisconnect p closeOk).1 = false ∧
      (pollDisconnect (pollDisconnect p closeOk).1 closeOk₂).2 = [ConnectionStatus.closed] ∧
      (pollDisconnect (pollDisconnect p closeOk).1 closeOk₂).1 = (pollDisconnect p closeOk).1) := by
  refine ⟨⟨rfl, ?_, ?_, ?_⟩, ⟨rfl, ?_, ?_, ?_⟩, rfl, rfl, rfl, rfl⟩
  · by_cases h : ws.wsPresent <;> simp [wsDisconnect, wsIsConnected, h]
  · by_cases h : ws.wsPresent <;> simp [wsDisconnect, h]
  · by_cases h : ws.wsPresent <;> simp [wsDisconnect, h]
  · by_cases h : es.esPresent <;> simp [esDisconnect, esIsConnected, h]
  · by_cases h : es.esPresent <;> simp [esDisconnect, h]
  · by_cases h : es.esPresent <;> simp [esDisconnect, h]

/-! ## A model of the host JSON primitives (JSON.stringify / JSON.parse)

The transports and the coordinator delegate to the platform JSON functions.
They are modelled concretely: `Json` is the value space (numbers restricted
to integers — the repository's wire payloads use integral counts and ids,
and float formatting is outside the embedding), `stringifyJson` mirrors
JSON.stringify (insertion-order fields, standard escapes), and `parseF` is
a fuel-indexed recursive-descent parser for ECMA-404 JSON documents over
that value space.  Braces are written with Char.ofNat 123 / 125. -/

/-- JSON values.  Object fields keep insertion order, as JS objects do. -/
inductive Json where
  | null : Json
  | bool (b : Bool) : Json
  | num (n : ℤ) : Json
  | str (s : String) : Json
  | arr (elems : List Json) : Json
  | obj (fields : List (String × Json)) : Json

/-- The four JSON whitespace characters (space, tab, line feed, carriage
return). -/
def isWsChar (c : Char) : Bool :=
  c = ' ' || c = Char.ofNat 9 || c = Char.ofNat 10 || c = Char.ofNat 13

/-- Drop leading JSON whitespace. -/
def skipWs : List Char → List Char
  | [] => []
  | c :: cs => if isWsChar c then skipWs cs else c :: cs

/-- Escape one character as JSON.stringify does inside a string literal. -/
def escapeChar (c : Char) : List Char :=
  if c = '"' then [Char.ofNat 92, '"']
  else if c = Char.ofNat 92 then [Char.ofNat 92, Char.ofNat 92]
  else if c = Char.ofNat 8 then [Char.ofNat 92, 'b']
  else if c = Char.ofNat 9 then [Char.ofNat 92, 't']
  else if c = Char.ofNat 10 then [Char.ofNat 92, 'n']
  else if c = Char.ofNat 12 then [Char.ofNat 92, 'f']
  else if c = Char.ofNat 13 then [Char.ofNat 92, 'r']
  else if c.toNat < 32 then
    [Char.ofNat 92, 'u', '0', '0', Nat.digitChar (c.toNat / 16), Nat.digitChar (c.toNat % 16)]
  else [c]

/-- A JSON string literal for `s`: quote, escaped content, quote. -/
def stringifyString (s : String) : List Char :=
  '"' :: s.toList.flatMap escapeChar ++ ['"']

/-- Decimal digits of a natural number, most significant first. -/
def natChars (n : ℕ) : List Char :=
  if n = 0 then ['0'] else ((Nat.digits 10 n).map Nat.digitChar).reverse

/-- Decimal representation of an integer. -/
def intChars (i : ℤ) : List Char :=
  if i < 0 then '-' :: natChars i.natAbs else natChars i.natAbs

mutual

/-- JSON.stringify over the value space. -/
def stringifyJson : Json → List Char
  | Json.null => ['n', 'u', 'l', 'l']
  | Json.bool true => ['t', 'r', 'u', 'e']
  | Json.bool false => ['f', 'a', 'l', 's', 'e']
  | Json.num i => intChars i
  | Json.str s => stringifyString s
  | Json.arr es => '[' :: stringifyElems es ++ [']']
  | Json.obj fs => Char.ofNat 123 :: stringifyFields fs ++ [Char.ofNat 125]

/-- Comma-separated stringified array elements. -/
def stringifyElems : List Json → List Char
  | [] => []
  | [v] => stringifyJson v
  | v :: rest => stringifyJson v ++ ',' :: stringifyElems rest

/-- Comma-separated stringified object fields. -/
def stringifyFields : List (String × Json) → List Char
  | [] => []
  | [kv] => stringifyString kv.1 ++ ':' :: stringifyJson kv.2
  | kv :: rest => stringifyString kv.1 ++ ':' :: stringifyJson kv.2 ++ ',' :: stringifyFields rest

end

/-- Hexadecimal value of a character, if it is a hex digit. -/
def hexVal (c : Char) : Option ℕ :=
  if 48 ≤ c.toNat ∧ c.toNat ≤ 57 then some (c.toNat - 48)
  else if 97 ≤ c.toNat ∧ c.toNat ≤ 102 then some (c.toNat - 87)
  else if 65 ≤ c.toNat ∧ c.toNat ≤ 70 then some (c.toNat - 55)
  else none

/-- Parse the body of a JSON string literal (after the opening quote) up to
and including the closing quote; returns the decoded characters and the
remaining input.  Unescaped control characters are invalid.  A \uXXXX escape
decodes through Char.ofNat (codes that are not scalar values fall to NUL;
the repository never produces them). -/
def parseStringRest : List Char → Option (List Char × List Char)
  | [] => none
  | c :: cs =>
    if c = '"' then some ([], cs)
    else if c = Char.ofNat 92 then
      match cs with
      | [] => none
      | e :: cs2 =>
        if e = '"' then (parseStringRest cs2).map (fun p => ('"' :: p.1, p.2))
        else if e = Char.ofNat 92 then
          (parseStringRest cs2).map (fun p => (Char.ofNat 92 :: p.1, p.2))
        else if e = '/' then (parseStringRest cs2).map (fun p => ('/' :: p.1, p.2))
        else if e = 'b' then (parseStringRest cs2).map (fun p => (Char.ofNat 8 :: p.1, p.2))
        else if e = 't' then (parseStringRest cs2).map (fun p => (Char.ofNat 9 :: p.1, p.2))
        else if e = 'n' then (parseStringRest cs2).map (fun p => (Char.ofNat 10 :: p.1, p.2))
        else if e = 'f' then (parseStringRest cs2).map (fun p => (Char.ofNat 12 :: p.1, p.2))
        else if e = 'r' then (parseStringRest cs2).map (fun p => (Char.ofNat 13 :: p.1, p.2))
        else if e = 'u' then
          match cs2 with
          | h1 :: h2 :: h3 :: h4 :: cs3 =>
            match hexVal h1, hexVal h2, hexVal h3, hexVal h4 with
            | some a, some b, some c3, some d =>
              (parseStringRest cs3).map
                (fun p => (Char.ofNat (((a * 16 + b) * 16 + c3) * 16 + d) :: p.1, p.2))
            | _, _, _, _ => none
          | _ => none
        else none
    else if c.toNat < 32 then none
    else (parseStringRest cs).map (fun p => (c :: p.1, p.2))

/-- Collect a maximal run of decimal digits. -/
def parseDigits : List Char → List ℕ × List Char
  | [] => ([], [])
  | c :: cs =>
    if 48 ≤ c.toNat ∧ c.toNat ≤ 57 then
      let p := parseDigits cs
      ((c.toNat - 48) :: p.1, p.2)
    else ([], c :: cs)

/-- Value of a digit list, most significant first. -/
def digitsVal (ds : List ℕ) : ℕ := ds.foldl (fun a d => 10 * a + d) 0

/-- Parse a JSON integer (optional minus sign, then digits). -/
def parseNumber : List Char → Option (ℤ × List Char)
  | [] => none
  | c :: cs =>
    if c = '-' then
      let p := parseDigits cs
      if p.1.isEmpty then none else some (-(digitsVal p.1 : ℤ), p.2)
    else
      let p := parseDigits (c :: cs)
      if p.1.isEmpty then none else some ((digitsVal p.1 : ℤ), p.2)

/-- The three recursive-descent tasks: a value, the elements of an array
(after the opening bracket, nonempty), the fields of an object (after the
opening brace, nonempty). -/
inductive ParseTask where
  | value (s : List Char)
  | elems (s : List Char)
  | fields (s : List Char)

/-- Task results. -/
inductive ParseOut where
  | value (v : Json) (rest : List Char)
  | elems (es : List Json) (rest : List Char)
  | fields (fs : List (String × Json)) (rest : List Char)

/-- Fuel-indexed JSON parser.  Every recursive call strictly decreases the
fuel, so the definition is structural and computable by the kernel. -/
def parseF : ℕ → ParseTask → Option ParseOut
  | 0, _ => none
  | fuel + 1, ParseTask.value s =>
    let s := skipWs s
    if s.take 4 = ['n', 'u', 'l', 'l'] then some (ParseOut.value Json.null (s.drop 4))
    else if s.take 4 = ['t', 'r', 'u', 'e'] then
      some (ParseOut.value (Json.bool true) (s.drop 4))
    else if s.take 5 = ['f', 'a', 'l', 's', 'e'] then
      some (ParseOut.value (Json.bool false) (s.drop 5))
    else
      match s with
      | [] => none
      | c :: cs =>
        if c = '"' then
          match parseStringRest cs with
          | some p => some (ParseOut.value (Json.str (String.mk p.1)) p.2)
          | none => none
        else if c = '[' then
          match skipWs cs with
          | c2 :: cs2 =>
            if c2 = ']' then some (ParseOut.value (Json.arr []) cs2)
            else
              match parseF fuel (ParseTask.elems (c2 :: cs2)) with
              | some (ParseOut.elems es rest) => some (ParseOut.value (Json.arr es) rest)
              | _ => none
          | [] => none
        else if c = Char.ofNat 123 then
          match skipWs cs with
          | c2 :: cs2 =>
            if c2 = Char.ofNat 125 then some (ParseOut.value (Json.obj []) cs2)
            else
              match parseF fuel (ParseTask.fields (c2 :: cs2)) with
              | some (ParseOut.fields fs rest) => some (ParseOut.value (Json.obj fs) rest)
              | _ => none
          | [] => none
        else if c = '-' ∨ (48 ≤ c.toNat ∧ c.toNat ≤ 57) then
          match parseNumber (c :: cs) with
          | some p => some (ParseOut.value (Json.num p.1) p.2)
          | none => none
        else none
  | fuel + 1, ParseTask.elems s =>
    match parseF fuel (ParseTask.value s) with
    | some (ParseOut.value v rest) =>
      match skipWs rest with
      | c :: cs =>
        if c = ',' then
          match parseF fuel (ParseTask.elems cs) with
          | some (ParseOut.elems es rest2) => some (ParseOut.elems (v :: es) rest2)
          | _ => none
        else if c = ']' then some (ParseOut.elems [v] cs)
        else none
      | [] => none
    | _ => none
  | fuel + 1, ParseTask.fields s =>
    match skipWs s with
    | c :: cs =>
      if c = '"' then
        match parseStringRest cs with
        | some pk =>
          match skipWs pk.2 with
          | c2 :: cs2 =>
            if c2 = ':' then
              match parseF fuel (ParseTask.value cs2) with
              | some (ParseOut.value v rest2) =>
                match skipWs rest2 with
                | c3 :: cs3 =>
                  if c3 = ',' then
                    match parseF fuel (ParseTask.fields cs3) with
                    | some (ParseOut.fields fs rest3) =>
                        some (ParseOut.fields ((String.mk pk.1, v) :: fs) rest3)
                    | _ => none
                  else if c3 = Char.ofNat 125 then
                    some (ParseOut.fields [(String.mk pk.1, v)] cs3)
                  else none
                | [] => none
              | _ => none
            else none
          | [] => none
        | none => none
      else none
    | [] => none

/-- Fuel that always suffices for a document of this length. -/
def jsonFuel (s : List Char) : ℕ := 2 * s.length + 2

/-- JSON.parse over the value space: parse one value, allow trailing
whitespace only. -/
def jsonParse (s : String) : Option Json :=
  match parseF (jsonFuel s.toList) (ParseTask.value s.toList) with
  | some (ParseOut.value v rest) => if skipWs rest = [] then some v else none
  | _ => none

/-! ## Round-trip lemmas for the JSON model -/

/-- The list does not begin with a decimal digit (so number parsing stops
exactly at the end of the printed number). -/
def notDigitStart : List Char → Prop
  | [] => True
  | c :: _ => ¬(48 ≤ c.toNat ∧ c.toNat ≤ 57)

theorem skipWs_cons (c : Char) (cs : List Char) (h : isWsChar c = false) :
    skipWs (c :: cs) = c :: cs := by
  simp [skipWs, h]

theorem isWsChar_false_of_toNat (c : Char) (h : 33 ≤ c.toNat) : isWsChar c = false := by
  simp only [isWsChar, Bool.or_eq_false_iff, decide_eq_false_iff_not]
  refine ⟨⟨⟨?_, ?_⟩, ?_⟩, ?_⟩ <;> · rintro rfl; simp_all

theorem digitChar_toNat (d : ℕ) (h : d < 10) : (Nat.digitChar d).toNat = 48 + d := by
  interval_cases d <;> rfl

theorem hexVal_digitChar (d : ℕ) (h : d < 16) : hexVal (Nat.digitChar d) = some d := by
  interval_cases d <;> rfl

theorem natChars_ne_nil (n : ℕ) : natChars n ≠ [] := by
  unfold natChars
  split
  · simp
  · next h =>
    simp only [ne_eq, List.reverse_eq_nil_iff, List.map_eq_nil_iff]
    exact Nat.digits_ne_nil_iff_ne_zero.mpr h

theorem natChars_digits (n : ℕ) : ∀ c ∈ natChars n, 48 ≤ c.toNat ∧ c.toNat ≤ 57 := by
  intro c hc
  unfold natChars at hc
  split at hc
  · simp at hc
    subst hc
    exact ⟨by decide, by decide⟩
  · next h =>
    rw [List.mem_reverse, List.mem_map] at hc
    obtain ⟨d, hd, rfl⟩ := hc
    have hlt : d < 10 := Nat.digits_lt_base (by norm_num) hd
    rw [digitChar_toNat d hlt]
    omega

theorem parseDigits_append (ds rest : List Char)
    (hds : ∀ c ∈ ds, 48 ≤ c.toNat ∧ c.toNat ≤ 57) (hrest : notDigitStart rest) :
    parseDigits (ds ++ rest) = (ds.map (fun c => c.toNat - 48), rest) := by
  induction ds with
  | nil =>
    cases rest with
    | nil => rfl
    | cons c cs =>
      simp only [List.nil_append, List.map_nil]
      unfold parseDigits
      rw [if_neg hrest]
  | cons c ds ih =>
    have hc := hds c (by simp)
    simp only [List.cons_append, List.map_cons]
    unfold parseDigits
    rw [if_pos hc, ih (fun x hx => hds x (by simp [hx]))]

theorem digitsVal_concat (l : List ℕ) (d : ℕ) :
    digitsVal (l ++ [d]) = 10 * digitsVal l + d := by
  simp [digitsVal, List.foldl_append]

theorem digitsVal_reverse (L : List ℕ) : digitsVal L.reverse = Nat.ofDigits 10 L := by
  induction L with
  | nil => rfl
  | cons d L ih =>
    rw [List.reverse_cons, digitsVal_concat, ih, Nat.ofDigits_cons]
    ring

theorem digitsVal_natChars (n : ℕ) :
    digitsVal ((natChars n).map (fun c => c.toNat - 48)) = n := by
  unfold natChars
  split
  · next h => subst h; rfl
  · next h =>
    have hdig : ((Nat.digits 10 n).map ((fun c => c.toNat - 48) ∘ Nat.digitChar))
        = Nat.digits 10 n := by
      have hpt : ∀ d ∈ Nat.digits 10 n,
          ((fun c => c.toNat - 48) ∘ Nat.digitChar) d = (fun d => d) d := by
        intro d hd
        have hlt : d < 10 := Nat.digits_lt_base (by norm_num) hd
        simp [Function.comp, digitChar_toNat d hlt]
      rw [List.map_congr_left hpt, List.map_id']
    have hmap : (((Nat.digits 10 n).map Nat.digitChar).reverse.map (fun c => c.toNat - 48))
        = ((Nat.digits 10 n).map ((fun c => c.toNat - 48) ∘ Nat.digitChar)).reverse := by
      simp [List.map_reverse, List.map_map]
    rw [hmap, hdig, digitsVal_reverse, Nat.ofDigits_digits]

theorem intChars_head (i : ℤ) :
    ∃ c cs, intChars i = c :: cs ∧ 45 ≤ c.toNat ∧ c.toNat ≤ 57 ∧
      (c = '-' ∨ (48 ≤ c.toNat ∧ c.toNat ≤ 57)) := by
  unfold intChars
  split
  · exact ⟨'-', natChars i.natAbs, rfl, by decide, by decide, Or.inl rfl⟩
  · obtain ⟨c, cs, hc⟩ := List.exists_cons_of_ne_nil (natChars_ne_nil i.natAbs)
    have hd := natChars_digits i.natAbs c (by rw [hc]; simp)
    exact ⟨c, cs, hc, by omega, hd.2, Or.inr hd⟩

theorem parseNumber_intChars (i : ℤ) (rest : List Char) (hrest : notDigitStart rest) :
    parseNumber (intChars i ++ rest) = some (i, rest) := by
  have hdig := natChars_digits i.natAbs
  have hpd := parseDigits_append (natChars i.natAbs) rest hdig hrest
  have hnn : natChars i.natAbs ≠ [] := natChars_ne_nil i.natAbs
  have hmapne : ¬((natChars i.natAbs).map (fun c => c.toNat - 48)).isEmpty = true := by
    simp only [List.isEmpty_iff, List.map_eq_nil_iff]
    exact hnn
  have hval := digitsVal_natChars i.natAbs
  unfold intChars
  split
  · next hneg =>
    rw [List.cons_append]
    simp only [parseNumber, if_pos rfl, hpd]
    rw [if_neg hmapne]
    simp only [hval]
    have : -((i.natAbs : ℕ) : ℤ) = i := by omega
    rw [this]
    simp
  · next hpos =>
    obtain ⟨c, cs, hc⟩ := List.exists_cons_of_ne_nil hnn
    have hd := natChars_digits i.natAbs c (by rw [hc]; simp)
    have hcm : ¬ c = '-' := by
      intro h
      subst h
      have := hd.1
      simp at this
    rw [hc, List.cons_append]
    simp only [parseNumber, if_neg hcm]
    rw [← List.cons_append, ← hc]
    simp only [hpd]
    rw [if_neg hmapne]
    simp only [hval]
    have : ((i.natAbs : ℕ) : ℤ) = i := by omega
    rw [this]


theorem psr_quote (cs : List Char) : parseStringRest ('"' :: cs) = some ([], cs) := by
  rw [parseStringRest.eq_def]
  simp

theorem psr_esc_quote (cs : List Char) :
    parseStringRest (Char.ofNat 92 :: '"' :: cs)
      = (parseStringRest cs).map (fun p => ('"' :: p.1, p.2)) := by
  rw [parseStringRest.eq_def]
  simp +decide

theorem psr_esc_backslash (cs : List Char) :
    parseStringRest (Char.ofNat 92 :: Char.ofNat 92 :: cs)
      = (parseStringRest cs).map (fun p => (Char.ofNat 92 :: p.1, p.2)) := by
  rw [parseStringRest.eq_def]
  simp +decide

theorem psr_esc_b (cs : List Char) :
    parseStringRest (Char.ofNat 92 :: 'b' :: cs)
      = (parseStringRest cs).map (fun p => (Char.ofNat 8 :: p.1, p.2)) := by
  rw [parseStringRest.eq_def]
  simp +decide

theorem psr_esc_t (cs : List Char) :
    parseStringRest (Char.ofNat 92 :: 't' :: cs)
      = (parseStringRest cs).map (fun p => (Char.ofNat 9 :: p.1, p.2)) := by
  rw [parseStringRest.eq_def]
  simp +decide

theorem psr_esc_n (cs : List Char) :
    parseStringRest (Char.ofNat 92 :: 'n' :: cs)
      = (parseStringRest cs).map (fun p => (Char.ofNat 10 :: p.1, p.2)) := by
  rw [parseStringRest.eq_def]
  simp +decide

theorem psr_esc_f (cs : List Char) :
    parseStringRest (Char.ofNat 92 :: 'f' :: cs)
      = (parseStringRest cs).map (fun p => (Char.ofNat 12 :: p.1, p.2)) := by
  rw [parseStringRest.eq_def]
  simp +decide

theorem psr_esc_r (cs : List Char) :
    parseStringRest (Char.ofNat 92 :: 'r' :: cs)
      = (parseStringRest cs).map (fun p => (Char.ofNat 13 :: p.1, p.2)) := by
  rw [parseStringRest.eq_def]
  simp +decide

theorem psr_esc_u (h1 h2 h3 h4 : Char) (a b c3 d : ℕ) (cs : List Char)
    (ha : hexVal h1 = some a) (hb : hexVal h2 = some b) (hc : hexVal h3 = some c3)
    (hd : hexVal h4 = some d) :
    parseStringRest (Char.ofNat 92 :: 'u' :: h1 :: h2 :: h3 :: h4 :: cs)
      = (parseStringRest cs).map
          (fun p => (Char.ofNat (((a * 16 + b) * 16 + c3) * 16 + d) :: p.1, p.2)) := by
  rw [parseStringRest.eq_def]
  simp +decide [ha, hb, hc, hd]

theorem psr_raw (c : Char) (cs : List Char) (h1 : ¬ c = '"') (h2 : ¬ c = Char.ofNat 92)
    (h3 : ¬ c.toNat < 32) :
    parseStringRest (c :: cs) = (parseStringRest cs).map (fun p => (c :: p.1, p.2)) := by
  rw [parseStringRest.eq_def]
  simp [h1, h2, h3]

theorem parseStringRest_escape (cs rest : List Char) :
    parseStringRest (cs.flatMap escapeChar ++ '"' :: rest) = some (cs, rest) := by
  induction cs with
  | nil =>
    simp only [List.flatMap_nil, List.nil_append]
    exact psr_quote rest
  | cons c cs ih =>
    rw [List.flatMap_cons, List.append_assoc]
    by_cases h1 : c = '"'
    · subst h1
      simp [escapeChar, psr_esc_quote, ih]
    · by_cases h2 : c = Char.ofNat 92
      · subst h2
        simp +decide [escapeChar, psr_esc_backslash, ih]
      · by_cases h3 : c = Char.ofNat 8
        · subst h3
          simp +decide [escapeChar, psr_esc_b, ih]
        · by_cases h4 : c = Char.ofNat 9
          · subst h4
            simp +decide [escapeChar, psr_esc_t, ih]
          · by_cases h5 : c = Char.ofNat 10
            · subst h5
              simp +decide [escapeChar, psr_esc_n, ih]
            · by_cases h6 : c = Char.ofNat 12
              · subst h6
                simp +decide [escapeChar, psr_esc_f, ih]
              · by_cases h7 : c = Char.ofNat 13
                · subst h7
                  simp +decide [escapeChar, psr_esc_r, ih]
                · by_cases h8 : c.toNat < 32
                  · have hhi : hexVal (Nat.digitChar (c.toNat / 16)) = some (c.toNat / 16) :=
                      hexVal_digitChar _ (by omega)
                    have hlo : hexVal (Nat.digitChar (c.toNat % 16)) = some (c.toNat % 16) :=
                      hexVal_digitChar _ (Nat.mod_lt _ (by norm_num))
                    have hesc : escapeChar c = [Char.ofNat 92, 'u', '0', '0',
                        Nat.digitChar (c.toNat / 16), Nat.digitChar (c.toNat % 16)] := by
                      unfold escapeChar
                      rw [if_neg h1, if_neg h2, if_neg h3, if_neg h4, if_neg h5, if_neg h6,
                        if_neg h7, if_pos h8]
                    rw [hesc]
                    simp only [List.cons_append, List.nil_append]
                    have h0 : hexVal '0' = some 0 := by decide
                    rw [psr_esc_u _ _ _ _ _ _ _ _ _ h0 h0 hhi hlo, ih]
                    have harith : ((0 * 16 + 0) * 16 + c.toNat / 16) * 16 + c.toNat % 16
                        = c.toNat := by omega
                    simp only [harith, Char.ofNat_toNat]
                    rfl
                  · have hesc : escapeChar c = [c] := by
                      unfold escapeChar
                      rw [if_neg h1, if_neg h2, if_neg h3, if_neg h4, if_neg h5, if_neg h6,
                        if_neg h7, if_neg h8]
                    rw [hesc]
                    simp only [List.cons_append, List.nil_append]
                    rw [psr_raw c _ h1 h2 h8, ih]
                    rfl

/-! ## stringify equations and size bookkeeping -/

theorem stringify_null : stringifyJson Json.null = ['n', 'u', 'l', 'l'] := by
  simp [stringifyJson]

theorem stringify_true : stringifyJson (Json.bool true) = ['t', 'r', 'u', 'e'] := by
  simp [stringifyJson]

theorem stringify_false : stringifyJson (Json.bool false) = ['f', 'a', 'l', 's', 'e'] := by
  simp [stringifyJson]

theorem stringify_num (i : ℤ) : stringifyJson (Json.num i) = intChars i := by
  simp [stringifyJson]

theorem stringify_str (s : String) : stringifyJson (Json.str s) = stringifyString s := by
  simp [stringifyJson]

theorem stringify_arr (es : List Json) :
    stringifyJson (Json.arr es) = '[' :: stringifyElems es ++ [']'] := by
  simp [stringifyJson]

theorem stringify_obj (fs : List (String × Json)) :
    stringifyJson (Json.obj fs) = Char.ofNat 123 :: stringifyFields fs ++ [Char.ofNat 125] := by
  simp [stringifyJson]

theorem stringifyElems_nil : stringifyElems [] = [] := by simp [stringifyElems]

theorem stringifyElems_single (v : Json) : stringifyElems [v] = stringifyJson v := by
  simp [stringifyElems]

theorem stringifyElems_cons₂ (v e : Json) (es : List Json) :
    stringifyElems (v :: e :: es) = stringifyJson v ++ ',' :: stringifyElems (e :: es) := by
  simp [stringifyElems]

theorem stringifyFields_nil : stringifyFields [] = [] := by simp [stringifyFields]

theorem stringifyFields_single (kv : String × Json) :
    stringifyFields [kv] = stringifyString kv.1 ++ ':' :: stringifyJson kv.2 := by
  simp [stringifyFields]

theorem stringifyFields_cons₂ (kv f : String × Json) (fs : List (String × Json)) :
    stringifyFields (kv :: f :: fs)
      = stringifyString kv.1 ++ ':' :: stringifyJson kv.2 ++ ',' :: stringifyFields (f :: fs) := by
  simp [stringifyFields]

/-- Fuel needed to parse the elements of an array. -/
def elemsNeed (es : List Json) : ℕ :=
  (es.map (fun e => (stringifyJson e).length + 1)).sum

/-- Fuel needed to parse the fields of an object. -/
def fieldsNeed (fs : List (String × Json)) : ℕ :=
  (fs.map (fun kv => (stringifyJson kv.2).length + 1)).sum

theorem stringify_len_pos (v : Json) : 1 ≤ (stringifyJson v).length := by
  cases v with
  | null => simp [stringify_null]
  | bool b => cases b <;> simp [stringify_true, stringify_false]
  | num i =>
    obtain ⟨c, cs, hc, -⟩ := intChars_head i
    rw [stringify_num, hc]
    simp
  | str s => rw [stringify_str]; simp [stringifyString]
  | arr es => rw [stringify_arr]; simp
  | obj fs => rw [stringify_obj]; simp

theorem elemsNeed_le (es : List Json) (h : es ≠ []) :
    elemsNeed es ≤ (stringifyElems es).length + 1 := by
  induction es with
  | nil => exact absurd rfl h
  | cons e es ih =>
    cases es with
    | nil => simp [elemsNeed, stringifyElems_single]
    | cons e2 es' =>
      have hih := ih (by simp)
      rw [stringifyElems_cons₂]
      simp only [elemsNeed, List.map_cons, List.sum_cons, List.length_append,
        List.length_cons] at *
      omega

theorem fieldsNeed_le (fs : List (String × Json)) (h : fs ≠ []) :
    fieldsNeed fs ≤ (stringifyFields fs).length + 1 := by
  induction fs with
  | nil => exact absurd rfl h
  | cons kv fs ih =>
    cases fs with
    | nil =>
      rw [stringifyFields_single]
      simp only [fieldsNeed, List.map_cons, List.map_nil, List.sum_cons, List.sum_nil,
        List.length_append, List.length_cons]
      omega
    | cons f fs' =>
      have hih := ih (by simp)
      rw [stringifyFields_cons₂]
      simp only [fieldsNeed, List.map_cons, List.sum_cons, List.length_append,
        List.length_cons] at *
      omega

theorem nds_nil : notDigitStart [] := trivial

theorem nds_comma (cs : List Char) : notDigitStart (',' :: cs) :=
  (by decide : ¬(48 ≤ ','.toNat ∧ ','.toNat ≤ 57))

theorem nds_rbracket (cs : List Char) : notDigitStart (']' :: cs) :=
  (by decide : ¬(48 ≤ ']'.toNat ∧ ']'.toNat ≤ 57))

theorem nds_rbrace (cs : List Char) : notDigitStart (Char.ofNat 125 :: cs) :=
  (by decide : ¬(48 ≤ (Char.ofNat 125).toNat ∧ (Char.ofNat 125).toNat ≤ 57))

theorem stringify_head (v : Json) :
    ∃ c cs, stringifyJson v = c :: cs ∧ isWsChar c = false ∧ ¬ c = ']' := by
  cases v with
  | null => exact ⟨'n', _, stringify_null, by decide, by decide⟩
  | bool b =>
    cases b with
    | true => exact ⟨'t', _, stringify_true, by decide, by decide⟩
    | false => exact ⟨'f', _, stringify_false, by decide, by decide⟩
  | num i =>
    obtain ⟨c, cs, hc, h45, h57, -⟩ := intChars_head i
    rw [stringify_num]
    refine ⟨c, cs, hc, isWsChar_false_of_toNat c (by omega), ?_⟩
    intro h
    rw [h] at h57
    exact absurd h57 (by decide)
  | str s => exact ⟨'"', _, stringify_str s, by decide, by decide⟩
  | arr es => exact ⟨'[', _, stringify_arr es, by decide, by decide⟩
  | obj fs => exact ⟨Char.ofNat 123, _, stringify_obj fs, by decide, by decide⟩

/-- The parser is a left inverse of the printer: with enough fuel, parsing a
printed value consumes exactly the printed characters. -/
theorem parseF_roundtrip (fuel : ℕ) :
    (∀ (v : Json) (rest : List Char), (stringifyJson v).length ≤ fuel → notDigitStart rest →
      parseF fuel (ParseTask.value (stringifyJson v ++ rest))
        = some (ParseOut.value v rest)) ∧
    (∀ (es : List Json) (rest : List Char), es ≠ [] → elemsNeed es ≤ fuel →
      parseF fuel (ParseTask.elems (stringifyElems es ++ ']' :: rest))
        = some (ParseOut.elems es rest)) ∧
    (∀ (fs : List (String × Json)) (rest : List Char), fs ≠ [] → fieldsNeed fs ≤ fuel →
      parseF fuel (ParseTask.fields (stringifyFields fs ++ Char.ofNat 125 :: rest))
        = some (ParseOut.fields fs rest)) := by
  induction fuel with
  | zero =>
    refine ⟨?_, ?_, ?_⟩
    · intro v rest hlen _
      exact absurd hlen (by have := stringify_len_pos v; omega)
    · intro es rest hne hlen
      cases es with
      | nil => exact absurd rfl hne
      | cons e es =>
        simp only [elemsNeed, List.map_cons, List.sum_cons] at hlen
        omega
    · intro fs rest hne hlen
      cases fs with
      | nil => exact absurd rfl hne
      | cons f fs =>
        simp only [fieldsNeed, List.map_cons, List.sum_cons] at hlen
        omega
  | succ fuel ih =>
    obtain ⟨ihv, ihe, ihf⟩ := ih
    refine ⟨?_, ?_, ?_⟩
    · intro v rest hlen hrest
      cases v with
      | null =>
        rw [stringify_null, parseF.eq_def]
        simp only [List.cons_append, List.nil_append]
        rw [skipWs_cons _ _ (by decide)]
        simp +decide
      | bool b =>
        cases b with
        | true =>
          rw [stringify_true, parseF.eq_def]
          simp only [List.cons_append, List.nil_append]
          rw [skipWs_cons _ _ (by decide)]
          simp +decide
        | false =>
          rw [stringify_false, parseF.eq_def]
          simp only [List.cons_append, List.nil_append]
          rw [skipWs_cons _ _ (by decide)]
          simp +decide
      | num i =>
        rw [stringify_num, parseF.eq_def]
        obtain ⟨c, cs, hc, h45, h57, hbr⟩ := intChars_head i
        have hpn := parseNumber_intChars i rest hrest
        rw [hc] at hpn ⊢
        simp only [List.cons_append]
        rw [skipWs_cons _ _ (isWsChar_false_of_toNat c (by omega))]
        have hcn : ¬ c = 'n' := by intro h; rw [h] at h57; exact absurd h57 (by decide)
        have hct : ¬ c = 't' := by intro h; rw [h] at h57; exact absurd h57 (by decide)
        have hcf : ¬ c = 'f' := by intro h; rw [h] at h57; exact absurd h57 (by decide)
        have hcq : ¬ c = '"' := by intro h; rw [h] at h45; exact absurd h45 (by decide)
        have hcb : ¬ c = '[' := by intro h; rw [h] at h57; exact absurd h57 (by decide)
        have hcbr : ¬ c = Char.ofNat 123 := by
          intro h; rw [h] at h57; exact absurd h57 (by decide)
        rw [List.cons_append] at hpn
        simp +decide [hcn, hct, hcf, hcq, hcb, hcbr, hbr, hpn, List.take_succ_cons,
          List.cons.injEq]
      | str s =>
        rw [stringify_str, parseF.eq_def]
        simp only [stringifyString, List.cons_append, List.nil_append, List.append_assoc]
        rw [skipWs_cons _ _ (by decide)]
        have hs := parseStringRest_escape s.data rest
        simp +decide [hs]
      | arr es =>
        cases es with
        | nil =>
          rw [stringify_arr, stringifyElems_nil, parseF.eq_def]
          simp only [List.cons_append, List.nil_append]
          rw [skipWs_cons _ _ (by decide)]
          have hsw2 : skipWs (']' :: rest) = ']' :: rest := skipWs_cons _ _ (by decide)
          simp +decide [hsw2]
        | cons e es =>
          have hlen2 : elemsNeed (e :: es) ≤ fuel := by
            have h1 := elemsNeed_le (e :: es) (by simp)
            have h2 : (stringifyJson (Json.arr (e :: es))).length
                = (stringifyElems (e :: es)).length + 2 := by
              rw [stringify_arr]; simp
            omega
          have hel := ihe (e :: es) rest (by simp) hlen2
          rw [stringify_arr, parseF.eq_def]
          simp only [List.cons_append, List.nil_append, List.append_assoc]
          rw [skipWs_cons _ _ (by decide)]
          obtain ⟨c, cs, hc, hws, hnrb⟩ := stringify_head e
          have hhd : ∃ c0 cs0, stringifyElems (e :: es) ++ ']' :: rest = c0 :: cs0 ∧
              isWsChar c0 = false ∧ ¬ c0 = ']' := by
            cases es with
            | nil =>
              rw [stringifyElems_single, hc]
              exact ⟨c, _, rfl, hws, hnrb⟩
            | cons e2 es' =>
              rw [stringifyElems_cons₂, hc]
              exact ⟨c, _, rfl, hws, hnrb⟩
          obtain ⟨c0, cs0, hsplit, hws0, hnrb0⟩ := hhd
          rw [show (stringifyElems (e :: es) ++ (']' :: rest) : List Char)
              = c0 :: cs0 from hsplit] at hel ⊢
          have hsw2 : skipWs (c0 :: cs0) = c0 :: cs0 := skipWs_cons _ _ hws0
          simp +decide [hsw2, hnrb0, hel]
      | obj fs =>
        cases fs with
        | nil =>
          rw [stringify_obj, stringifyFields_nil, parseF.eq_def]
          simp only [List.cons_append, List.nil_append]
          rw [skipWs_cons _ _ (by decide)]
          have hsw2 : skipWs (Char.ofNat 125 :: rest) = Char.ofNat 125 :: rest :=
            skipWs_cons _ _ (by decide)
          simp +decide [hsw2]
        | cons f fs =>
          have hlen2 : fieldsNeed (f :: fs) ≤ fuel := by
            have h1 := fieldsNeed_le (f :: fs) (by simp)
            have h2 : (stringifyJson (Json.obj (f :: fs))).length
                = (stringifyFields (f :: fs)).length + 2 := by
              rw [stringify_obj]; simp
            omega
          have hfl := ihf (f :: fs) rest (by simp) hlen2
          rw [stringify_obj, parseF.eq_def]
          simp only [List.cons_append, List.nil_append, List.append_assoc]
          rw [skipWs_cons _ _ (by decide)]
          have hhd : ∃ cs0, stringifyFields (f :: fs) ++ Char.ofNat 125 :: rest
              = '"' :: cs0 := by
            cases fs with
            | nil =>
              rw [stringifyFields_single]
              simp only [stringifyString, List.cons_append, List.append_assoc]
              exact ⟨_, rfl⟩
            | cons f2 fs' =>
              rw [stringifyFields_cons₂]
              simp only [stringifyString, List.cons_append, List.append_assoc]
              exact ⟨_, rfl⟩
          obtain ⟨cs0, hsplit⟩ := hhd
          rw [show (stringifyFields (f :: fs) ++ (Char.ofNat 125 :: rest) : List Char)
              = '"' :: cs0 from hsplit] at hfl ⊢
          have hsw2 : skipWs ('"' :: cs0) = '"' :: cs0 := skipWs_cons _ _ (by decide)
          simp +decide [hsw2, hfl]
    · intro es rest hne hfuel
      cases es with
      | nil => exact absurd rfl hne
      | cons e es =>
        cases es with
        | nil =>
          have hle : (stringifyJson e).length ≤ fuel := by
            simp only [elemsNeed, List.map_cons, List.map_nil, List.sum_cons,
              List.sum_nil] at hfuel
            omega
          have hv := ihv e (']' :: rest) hle (nds_rbracket rest)
          rw [stringifyElems_single, parseF.eq_def]
          have hsw : skipWs (']' :: rest) = ']' :: rest := skipWs_cons _ _ (by decide)
          simp +decide [hv, hsw]
        | cons e2 es' =>
          have hle : (stringifyJson e).length ≤ fuel := by
            simp only [elemsNeed, List.map_cons, List.sum_cons] at hfuel
            omega
          have hrec : elemsNeed (e2 :: es') ≤ fuel := by
            simp only [elemsNeed, List.map_cons, List.sum_cons] at hfuel ⊢
            omega
          have hv := ihv e (',' :: (stringifyElems (e2 :: es') ++ ']' :: rest)) hle
            (nds_comma _)
          have he := ihe (e2 :: es') rest (by simp) hrec
          rw [stringifyElems_cons₂, parseF.eq_def]
          rw [List.append_assoc]
          simp only [List.cons_append]
          have hsw : skipWs (',' :: (stringifyElems (e2 :: es') ++ ']' :: rest))
              = ',' :: (stringifyElems (e2 :: es') ++ ']' :: rest) :=
            skipWs_cons _ _ (by decide)
          simp +decide [hv, hsw, he]
    · intro fs rest hne hfuel
      cases fs with
      | nil => exact absurd rfl hne
      | cons f fs =>
        obtain ⟨k, v⟩ := f
        cases fs with
        | nil =>
          have hle : (stringifyJson v).length ≤ fuel := by
            simp only [fieldsNeed, List.map_cons, List.map_nil, List.sum_cons,
              List.sum_nil] at hfuel
            omega
          have hv := ihv v (Char.ofNat 125 :: rest) hle (nds_rbrace rest)
          rw [stringifyFields_single, parseF.eq_def]
          simp only [stringifyString, List.cons_append, List.nil_append, List.append_assoc]
          rw [skipWs_cons _ _ (by decide)]
          have hk := parseStringRest_escape k.data
            (':' :: (stringifyJson v ++ Char.ofNat 125 :: rest))
          have hsw1 : skipWs (':' :: (stringifyJson v ++ Char.ofNat 125 :: rest))
              = ':' :: (stringifyJson v ++ Char.ofNat 125 :: rest) :=
            skipWs_cons _ _ (by decide)
          have hsw2 : skipWs (Char.ofNat 125 :: rest) = Char.ofNat 125 :: rest :=
            skipWs_cons _ _ (by decide)
          simp +decide [hk, hsw1, hsw2, hv]
        | cons f2 fs' =>
          have hle : (stringifyJson v).length ≤ fuel := by
            simp only [fieldsNeed, List.map_cons, List.sum_cons] at hfuel
            omega
          have hrec : fieldsNeed (f2 :: fs') ≤ fuel := by
            simp only [fieldsNeed, List.map_cons, List.sum_cons] at hfuel ⊢
            omega
          have hv := ihv v
            (',' :: (stringifyFields (f2 :: fs') ++ Char.ofNat 125 :: rest)) hle
            (nds_comma _)
          have hf := ihf (f2 :: fs') rest (by simp) hrec
          rw [stringifyFields_cons₂, parseF.eq_def]
          simp only [stringifyString, List.cons_append, List.nil_append, List.append_assoc]
          rw [skipWs_cons _ _ (by decide)]
          have hk := parseStringRest_escape k.data
            (':' :: (stringifyJson v
              ++ ',' :: (stringifyFields (f2 :: fs') ++ Char.ofNat 125 :: rest)))
          have hsw1 : skipWs (':' :: (stringifyJson v
              ++ ',' :: (stringifyFields (f2 :: fs') ++ Char.ofNat 125 :: rest)))
              = ':' :: (stringifyJson v
                ++ ',' :: (stringifyFields (f2 :: fs') ++ Char.ofNat 125 :: rest)) :=
            skipWs_cons _ _ (by decide)
          have hsw2 : skipWs (',' :: (stringifyFields (f2 :: fs') ++ Char.ofNat 125 :: rest))
              = ',' :: (stringifyFields (f2 :: fs') ++ Char.ofNat 125 :: rest) :=
            skipWs_cons _ _ (by decide)
          simp +decide [hk, hsw1, hsw2, hv, hf]

/-- The full round trip: parsing a stringified value gives the value back. -/
theorem jsonParse_stringify (v : Json) :
    jsonParse (String.mk (stringifyJson v)) = some v := by
  show (match parseF (jsonFuel (stringifyJson v)) (ParseTask.value (stringifyJson v)) with
    | some (ParseOut.value v rest) => if skipWs rest = [] then some v else none
    | _ => none) = some v
  have hfuel : (stringifyJson v).length ≤ jsonFuel (stringifyJson v) := by
    unfold jsonFuel; omega
  have h := (parseF_roundtrip (jsonFuel (stringifyJson v))).1 v [] hfuel trivial
  rw [List.append_nil] at h
  rw [h]
  simp [skipWs]

/-! ## sanitizeInput / sanitizeJsonInput (src/utils/security.ts lines 9-60)
and the coordinator's sendMessage (src/context/SessionContext.tsx lines
413-443).  JS String.prototype.trim strips WhiteSpace and LineTerminator
code points; the characters below cover the ones that can occur here. -/

/-- Is the character stripped by JS trim()? -/
def isJsTrimWs (c : Char) : Bool :=
  c = ' ' || c = Char.ofNat 9 || c = Char.ofNat 10 || c = Char.ofNat 11 ||
  c = Char.ofNat 12 || c = Char.ofNat 13 || c = Char.ofNat 160 ||
  c = Char.ofNat 0xFEFF || c = Char.ofNat 0x2028 || c = Char.ofNat 0x2029

/-- trim() on a character list: drop the trim set from both ends. -/
def trimChars (l : List Char) : List Char :=
  ((l.dropWhile isJsTrimWs).reverse.dropWhile isJsTrimWs).reverse

/-- sanitizeInput (security.ts lines 9-21): remove null bytes, then trim. -/
def sanitizeInput (s : String) : String :=
  String.mk (trimChars (s.data.filter (fun c => !(c = Char.ofNat 0) : Char → Bool)))

/-- sanitizeJsonInput (security.ts lines 48-60): sanitize, then require the
result to parse as JSON and re-stringify it; a parse failure becomes the
error the source throws. -/
def sanitizeJsonInput (s : String) : Except String String :=
  let sanitized := sanitizeInput s
  match jsonParse sanitized with
  | some parsed => Except.ok (String.mk (stringifyJson parsed))
  | none => Except.error "Invalid JSON format"

/-- The payloads sendMessage inspects: a JSON string, or a JS object
(modelled by its JSON value; other payload types pass through untouched in
the source and are not modelled). -/
inductive SendPayload where
  | str (s : String) : SendPayload
  | obj (j : Json) : SendPayload

/-- sendMessage's sanitization step (SessionContext.tsx lines 419-427):
strings are passed to sanitizeJsonInput directly; objects are
JSON.stringify-ed first.  The result is what is delegated to the active
transport's send; an error is the thrown failure. -/
def sendMessagePayload : SendPayload → Except String String
  | SendPayload.str s => sanitizeJsonInput s
  | SendPayload.obj j => sanitizeJsonInput (String.mk (stringifyJson j))

theorem digitChar_ne_nul (d : ℕ) (h : d < 16) : ¬ Nat.digitChar d = Char.ofNat 0 := by
  interval_cases d <;> decide

theorem escapeChar_no_nul (a : Char) : Char.ofNat 0 ∉ escapeChar a := by
  unfold escapeChar
  split_ifs with h1 h2 h3 h4 h5 h6 h7 h8
  · decide
  · decide
  · decide
  · decide
  · decide
  · decide
  · decide
  · intro hmem
    simp only [List.mem_cons, List.not_mem_nil, or_false] at hmem
    rcases hmem with h | h | h | h | h | h
    · exact absurd h (by decide)
    · exact absurd h (by decide)
    · exact absurd h (by decide)
    · exact absurd h (by decide)
    · exact absurd h.symm (digitChar_ne_nul _ (by omega))
    · exact absurd h.symm (digitChar_ne_nul _ (Nat.mod_lt _ (by norm_num)))
  · intro hmem
    simp only [List.mem_cons, List.not_mem_nil, or_false] at hmem
    exact h8 (by rw [← hmem]; decide)

theorem intChars_no_nul (i : ℤ) : Char.ofNat 0 ∉ intChars i := by
  intro h
  unfold intChars at h
  split at h
  · rcases List.mem_cons.mp h with h | h
    · exact absurd h (by decide)
    · exact absurd (natChars_digits _ _ h) (by decide)
  · exact absurd (natChars_digits _ _ h) (by decide)

theorem stringifyString_no_nul (s : String) : Char.ofNat 0 ∉ stringifyString s := by
  intro h
  unfold stringifyString at h
  rcases List.mem_cons.mp h with h | h
  · exact absurd h (by decide)
  · rcases List.mem_append.mp h with h | h
    · obtain ⟨a, -, ha⟩ := List.mem_flatMap.mp h
      exact escapeChar_no_nul a ha
    · simp only [List.mem_cons, List.not_mem_nil, or_false] at h
      exact absurd h (by decide)

theorem stringify_no_nul_aux (n : ℕ) :
    (∀ v : Json, sizeOf v ≤ n → Char.ofNat 0 ∉ stringifyJson v) ∧
    (∀ es : List Json, sizeOf es ≤ n → Char.ofNat 0 ∉ stringifyElems es) ∧
    (∀ fs : List (String × Json), sizeOf fs ≤ n → Char.ofNat 0 ∉ stringifyFields fs) := by
  induction n with
  | zero =>
    refine ⟨?_, ?_, ?_⟩
    · intro v hv
      exfalso
      have h1 : 1 ≤ sizeOf v := by cases v <;> simp_arith
      omega
    · intro es hes
      cases es with
      | nil => rw [stringifyElems_nil]; simp
      | cons e es =>
        exfalso
        have h1 : 1 ≤ sizeOf (e :: es) := by simp_arith
        omega
    · intro fs hfs
      cases fs with
      | nil => rw [stringifyFields_nil]; simp
      | cons f fs =>
        exfalso
        have h1 : 1 ≤ sizeOf (f :: fs) := by simp_arith
        omega
  | succ n ih =>
    obtain ⟨ihv, ihe, ihf⟩ := ih
    refine ⟨?_, ?_, ?_⟩
    · intro v hv
      cases v with
      | null => rw [stringify_null]; decide
      | bool b => cases b <;> [rw [stringify_false]; rw [stringify_true]] <;> decide
      | num i => rw [stringify_num]; exact intChars_no_nul i
      | str s => rw [stringify_str]; exact stringifyString_no_nul s
      | arr es =>
        rw [stringify_arr]
        intro h
        rcases List.mem_cons.mp h with h | h
        · exact absurd h (by decide)
        · rcases List.mem_append.mp h with h | h
          · exact ihe es (by simp at hv; omega) h
          · simp only [List.mem_cons, List.not_mem_nil, or_false] at h
            exact absurd h (by decide)
      | obj fs =>
        rw [stringify_obj]
        intro h
        rcases List.mem_cons.mp h with h | h
        · exact absurd h (by decide)
        · rcases List.mem_append.mp h with h | h
          · exact ihf fs (by simp at hv; omega) h
          · simp only [List.mem_cons, List.not_mem_nil, or_false] at h
            exact absurd h (by decide)
    · intro es hes
      cases es with
      | nil => rw [stringifyElems_nil]; simp
      | cons e es =>
        cases es with
        | nil =>
          rw [stringifyElems_single]
          exact ihv e (by simp at hes; omega)
        | cons e2 es' =>
          rw [stringifyElems_cons₂]
          intro h
          rcases List.mem_append.mp h with h | h
          · exact ihv e (by simp at hes; omega) h
          · rcases List.mem_cons.mp h with h | h
            · exact absurd h (by decide)
            · exact ihe (e2 :: es') (by simp at hes ⊢; omega) h
    · intro fs hfs
      cases fs with
      | nil => rw [stringifyFields_nil]; simp
      | cons f fs =>
        cases fs with
        | nil =>
          rw [stringifyFields_single]
          intro h
          rcases List.mem_append.mp h with h | h
          · exact stringifyString_no_nul f.1 h
          · rcases List.mem_cons.mp h with h | h
            · exact absurd h (by decide)
            · exact ihv f.2 (by
                obtain ⟨k, v⟩ := f
                simp at hfs ⊢
                omega) h
        | cons f2 fs' =>
          rw [stringifyFields_cons₂]
          intro h
          rcases List.mem_append.mp h with h | h
          · rcases List.mem_append.mp h with h | h
            · exact stringifyString_no_nul f.1 h
            · rcases List.mem_cons.mp h with h | h
              · exact absurd h (by decide)
              · exact ihv f.2 (by
                  obtain ⟨k, v⟩ := f
                  simp at hfs ⊢
                  omega) h
          · rcases List.mem_cons.mp h with h | h
            · exact absurd h (by decide)
            · exact ihf (f2 :: fs') (by
                obtain ⟨k, v⟩ := f
                simp at hfs ⊢
                omega) h

theorem stringify_no_nul (v : Json) : Char.ofNat 0 ∉ stringifyJson v :=
  (stringify_no_nul_aux (sizeOf v)).1 v le_rfl

theorem stringify_head_range (v : Json) :
    ∃ c cs, stringifyJson v = c :: cs ∧ 34 ≤ c.toNat ∧ c.toNat ≤ 123 := by
  cases v with
  | null => exact ⟨'n', _, stringify_null, by decide, by decide⟩
  | bool b =>
    cases b with
    | true => exact ⟨'t', _, stringify_true, by decide, by decide⟩
    | false => exact ⟨'f', _, stringify_false, by decide, by decide⟩
  | num i =>
    obtain ⟨c, cs, hc, h45, h57, -⟩ := intChars_head i
    rw [stringify_num]
    exact ⟨c, cs, hc, by omega, by omega⟩
  | str s => exact ⟨'"', _, stringify_str s, by decide, by decide⟩
  | arr es => exact ⟨'[', _, stringify_arr es, by decide, by decide⟩
  | obj fs => exact ⟨Char.ofNat 123, _, stringify_obj fs, by decide, by decide⟩

theorem natChars_getLast (n : ℕ) :
    ∃ c, (natChars n).getLast? = some c ∧ 48 ≤ c.toNat ∧ c.toNat ≤ 57 := by
  have hne := natChars_ne_nil n
  refine ⟨(natChars n).getLast hne, List.getLast?_eq_getLast _ hne, ?_⟩
  exact natChars_digits n _ (List.getLast_mem hne)

theorem stringify_last (v : Json) :
    ∃ c, (stringifyJson v).getLast? = some c ∧ 34 ≤ c.toNat ∧ c.toNat ≤ 125 := by
  cases v with
  | null => exact ⟨'l', by rw [stringify_null]; rfl, by decide, by decide⟩
  | bool b =>
    cases b with
    | true => exact ⟨'e', by rw [stringify_true]; rfl, by decide, by decide⟩
    | false => exact ⟨'e', by rw [stringify_false]; rfl, by decide, by decide⟩
  | num i =>
    obtain ⟨c, hc, h48, h57⟩ := natChars_getLast i.natAbs
    rw [stringify_num]
    unfold intChars
    split
    · refine ⟨c, ?_, by omega, by omega⟩
      rw [show ('-' :: natChars i.natAbs : List Char) = ['-'] ++ natChars i.natAbs
        from rfl]
      rw [List.getLast?_append_of_ne_nil _ (natChars_ne_nil i.natAbs)]
      exact hc
    · exact ⟨c, hc, by omega, by omega⟩
  | str s =>
    rw [stringify_str]
    unfold stringifyString
    refine ⟨'"', ?_, by decide, by decide⟩
    exact List.getLast?_concat _
  | arr es =>
    rw [stringify_arr]
    refine ⟨']', ?_, by decide, by decide⟩
    exact List.getLast?_concat _
  | obj fs =>
    rw [stringify_obj]
    refine ⟨Char.ofNat 125, ?_, by decide, by decide⟩
    exact List.getLast?_concat _

theorem isJsTrimWs_false_of_range (c : Char) (h1 : 34 ≤ c.toNat) (h2 : c.toNat ≤ 125) :
    isJsTrimWs c = false := by
  simp only [isJsTrimWs, Bool.or_eq_false_iff, decide_eq_false_iff_not]
  refine ⟨⟨⟨⟨⟨⟨⟨⟨⟨?_, ?_⟩, ?_⟩, ?_⟩, ?_⟩, ?_⟩, ?_⟩, ?_⟩, ?_⟩, ?_⟩ <;>
    · rintro rfl; simp_all

theorem trimChars_eq_self (l : List Char)
    (hhead : ∀ c, l.head? = some c → isJsTrimWs c = false)
    (hlast : ∀ c, l.getLast? = some c → isJsTrimWs c = false) :
    trimChars l = l := by
  unfold trimChars
  cases l with
  | nil => rfl
  | cons c cs =>
    have h1 : (c :: cs).dropWhile isJsTrimWs = c :: cs := by
      rw [List.dropWhile_cons, if_neg]
      rw [hhead c rfl]
      simp
    rw [h1]
    have hne : (c :: cs).reverse ≠ [] := by simp
    obtain ⟨d, rs, hdr⟩ := List.exists_cons_of_ne_nil hne
    have hd : isJsTrimWs d = false := by
      apply hlast
      rw [← List.head?_reverse, hdr]
      rfl
    rw [hdr, List.dropWhile_cons, if_neg (by rw [hd]; simp), ← hdr,
      List.reverse_reverse]

theorem sanitizeInput_stringify (v : Json) :
    sanitizeInput (String.mk (stringifyJson v)) = String.mk (stringifyJson v) := by
  unfold sanitizeInput
  have hfilter : (stringifyJson v).filter (fun c => !(c = Char.ofNat 0) : Char → Bool)
      = stringifyJson v := by
    apply List.filter_eq_self.mpr
    intro a ha
    have : ¬ a = Char.ofNat 0 := by
      intro h
      rw [h] at ha
      exact stringify_no_nul v ha
    simp [this]
  have htrim : trimChars (stringifyJson v) = stringifyJson v := by
    apply trimChars_eq_self
    · intro c hc
      obtain ⟨c0, cs0, h0, h1, h2⟩ := stringify_head_range v
      rw [h0] at hc
      simp only [List.head?_cons, Option.some.injEq] at hc
      subst hc
      exact isJsTrimWs_false_of_range c0 h1 (by omega)
    · intro c hc
      obtain ⟨c0, h0, h1, h2⟩ := stringify_last v
      rw [h0] at hc
      simp only [Option.some.injEq] at hc
      subst hc
      exact isJsTrimWs_false_of_range c0 h1 h2
  show String.mk (trimChars ((stringifyJson v).filter _)) = String.mk (stringifyJson v)
  rw [hfilter, htrim]

/-- A string payload whose JSON text carries a trailing 0x01 control
character. -/
def ctrlPayload : String := String.mk ['[', '1', ']', Char.ofNat 1]

/-- C10 counterexample: sanitizeInput strips only null bytes and trims
whitespace — the 0x01 control character survives it, so the payload is not
"sanitized by stripping control characters": re-validation then rejects the
payload that stripping would have repaired, and sendMessage throws instead
of delegating a cleaned payload. -/
theorem C10_control_char_counterexample :
    sanitizeInput ctrlPayload = ctrlPayload ∧
    Char.ofNat 1 ∈ (sanitizeInput ctrlPayload).data ∧
    sendMessagePayload (SendPayload.str ctrlPayload)
      = Except.error "Invalid JSON format" := by
  refine ⟨rfl, by decide, rfl⟩

/-- C10 (amended): sanitizeInput strips null bytes (never all control
characters) and trims outer whitespace; sanitizeJsonInput re-validates the
result as JSON; and for every object payload the sanitized serialized form
is delegated unchanged and parses back to a value equal to the original
object (round trip). -/
theorem C10_sendMessage_sanitize_amended (j : Json) (s : String) :
    sendMessagePayload (SendPayload.obj j)
      = Except.ok (String.mk (stringifyJson j)) ∧
    jsonParse (String.mk (stringifyJson j)) = some j ∧
    Char.ofNat 0 ∉ (sanitizeInput s).data ∧
    sendMessagePayload (SendPayload.str s) = sanitizeJsonInput s := by
  refine ⟨?_, jsonParse_stringify j, ?_, rfl⟩
  · show sanitizeJsonInput (String.mk (stringifyJson j)) = _
    unfold sanitizeJsonInput
    rw [sanitizeInput_stringify]
    show (match jsonParse (String.mk (stringifyJson j)) with
      | some parsed => Except.ok (String.mk (stringifyJson parsed))
      | none => Except.error "Invalid JSON format") = _
    rw [jsonParse_stringify j]
  · intro h
    have hchain : Char.ofNat 0 ∈ s.data.filter
        (fun c => !(c = Char.ofNat 0) : Char → Bool) := by
      have h1 : Char.ofNat 0 ∈ ((s.data.filter
          (fun c => !(c = Char.ofNat 0) : Char → Bool)).dropWhile
            isJsTrimWs).reverse.dropWhile isJsTrimWs := by
        have : (sanitizeInput s).data = trimChars (s.data.filter
            (fun c => !(c = Char.ofNat 0) : Char → Bool)) := rfl
        rw [this] at h
        unfold trimChars at h
        exact List.mem_reverse.mp h
      have h2 := List.dropWhile_subset isJsTrimWs h1
      rw [List.mem_reverse] at h2
      exact List.dropWhile_subset isJsTrimWs h2
    have := (List.mem_filter.mp hchain).2
    simp at this

/-! ## Transport message handling (src/adapters/WebSocketTransport.ts lines
202-253 and src/adapters/EventSourceTransport.ts lines 221-260).
The fresh UUID, the ISO timestamp, the btoa encoding and the text of the
caught JS exception are environment inputs.  JS property semantics on the
parsed value (reading .id of null throws; strict-mode assignment to a
primitive throws) are modelled by Option, where none is the thrown path that
the surrounding try/catch converts into the synthetic PARSE_ERROR message. -/

/-- Is a JSON value falsy in JS (for the !messageData.id check)? -/
def jsFalsy : Json → Bool
  | Json.null => true
  | Json.bool b => !b
  | Json.num n => decide (n = 0)
  | Json.str s => decide (s = "")
  | _ => false

/-- Reading `.key` and testing falsiness: none models a thrown TypeError
(property access on null); missing properties are undefined, hence falsy.
Named properties of arrays and primitives are absent. -/
def jsFieldFalsy (j : Json) (key : String) : Option Bool :=
  match j with
  | Json.null => none
  | Json.obj fields =>
      some (match fields.find? (fun kv => kv.1 = key) with
        | some kv => jsFalsy kv.2
        | none => true)
  | _ => some true

/-- Replace or append a field, preserving insertion order as JS does. -/
def setField (fields : List (String × Json)) (key : String) (v : Json) :
    List (String × Json) :=
  if fields.any (fun kv => kv.1 = key) then
    fields.map (fun kv => if kv.1 = key then (kv.1, v) else kv)
  else fields ++ [(key, v)]

/-- Assignment `messageData.key = str` in strict mode: objects are updated; array
expando properties fall outside the JSON value model and leave the value;
assignment to a primitive or null throws. -/
def jsSetStrField (j : Json) (key : String) (v : String) : Option Json :=
  match j with
  | Json.obj fields => some (Json.obj (setField fields key (Json.str v)))
  | Json.arr es => some (Json.arr es)
  | _ => none

/-- Backfill step `if (!messageData.key) messageData.key = value` (id and
timestamp, WebSocketTransport.ts lines 226-231). -/
def ensureField (j : Json) (key value : String) : Option Json := do
  let f ← jsFieldFalsy j key
  if f then jsSetStrField j key value else some j

/-- Field lookup on a delivered message. -/
def jsonField (j : Json) (key : String) : Option Json :=
  match j with
  | Json.obj fields => (fields.find? (fun kv => kv.1 = key)).map (fun kv => kv.2)
  | _ => none

/-- A frame received by the websocket: binary audio or text. -/
inductive WireData where
  | binary (bytes : List ℕ) : WireData
  | text (s : String) : WireData

/-- The synthetic message built when handleMessage catches
(WebSocketTransport.ts lines 240-247). -/
def wsParseErrorMessage (freshId ts raw errText : String) : Json :=
  Json.obj [("id", Json.str freshId), ("timestamp", Json.str ts),
    ("type", Json.str "error"), ("error_code", Json.str "PARSE_ERROR"),
    ("message", Json.str "Failed to parse incoming message"),
    ("details", Json.obj [("raw", Json.str raw), ("error", Json.str errText)])]

/-- WebSocketTransport.handleMessage (lines 202-253): binary frames become
audio-received messages; text frames are JSON.parsed, get id and timestamp
backfilled, and are delivered; any throw in that path delivers exactly one
synthetic PARSE_ERROR message instead.  The returned list is what reaches
the registered message callback; the function is total: nothing escapes to
the caller. -/
def wsHandleMessage (freshId ts errText : String) (b64 : List ℕ → String) :
    WireData → List Json
  | WireData.binary bytes =>
      [Json.obj [("id", Json.str freshId), ("timestamp", Json.str ts),
        ("type", Json.str "audio"), ("data", Json.str (b64 bytes)),
        ("direction", Json.str "received"), ("bytesCount", Json.num bytes.length)]]
  | WireData.text s =>
      match (do
        let j ← jsonParse s
        let j ← ensureField j "id" freshId
        ensureField j "timestamp" ts : Option Json) with
      | some m => [m]
      | none => [wsParseErrorMessage freshId ts s errText]

/-- The synthetic message built by the SSE handler
(EventSourceTransport.ts lines 247-254). -/
def sseParseErrorMessage (freshId ts raw errText : String) : Json :=
  Json.obj [("id", Json.str freshId), ("timestamp", Json.str ts),
    ("type", Json.str "error"), ("error_code", Json.str "PARSE_ERROR"),
    ("message", Json.str "Failed to parse incoming SSE message"),
    ("details", Json.obj [("raw", Json.str raw), ("error", Json.str errText)])]

/-- EventSourceTransport.handleMessage (lines 221-260): parse, set the type
from the SSE event name when absent, backfill id and timestamp; a throw
anywhere in that path delivers exactly one synthetic PARSE_ERROR message. -/
def sseHandleMessage (freshId ts errText : String) (eventType : Option String)
    (data : String) : List Json :=
  match (do
    let j ← jsonParse data
    let j ← (match eventType with
      | some et => do
          let f ← jsFieldFalsy j "type"
          if f then jsSetStrField j "type" et else some j
      | none => some j)
    let j ← ensureField j "id" freshId
    ensureField j "timestamp" ts : Option Json) with
  | some m => [m]
  | none => [sseParseErrorMessage freshId ts data errText]

/-- C7: a text frame whose content is not valid JSON never raises out of the
transport (the handlers are total functions of the frame); it is delivered
to the registered message callback as exactly one synthetic message whose
type is "error" and whose error_code is "PARSE_ERROR", for both the
websocket and the SSE transport. -/
theorem C7_parse_error_handling (freshId ts errText s : String)
    (h : jsonParse s = none) :
    (∀ b64, wsHandleMessage freshId ts errText b64 (WireData.text s)
        = [wsParseErrorMessage freshId ts s errText]) ∧
    jsonField (wsParseErrorMessage freshId ts s errText) "type"
      = some (Json.str "error") ∧
    jsonField (wsParseErrorMessage freshId ts s errText) "error_code"
      = some (Json.str "PARSE_ERROR") ∧
    (∀ eventType, sseHandleMessage freshId ts errText eventType s
        = [sseParseErrorMessage freshId ts s errText]) ∧
    jsonField (sseParseErrorMessage freshId ts s errText) "type"
      = some (Json.str "error") ∧
    jsonField (sseParseErrorMessage freshId ts s errText) "error_code"
      = some (Json.str "PARSE_ERROR") := by
  refine ⟨?_, ?_, ?_, ?_, ?_, ?_⟩
  · intro b64
    simp [wsHandleMessage, h]
  · simp [jsonField, wsParseErrorMessage, List.find?]
  · simp [jsonField, wsParseErrorMessage, List.find?]
  · intro eventType
    simp [sseHandleMessage, h]
  · simp [jsonField, sseParseErrorMessage, List.find?]
  · simp [jsonField, sseParseErrorMessage, List.find?]

/-- The malformed frame of the spec scenario: an opening brace followed by
"not valid". -/
def malformedFrame : String :=
  String.mk [Char.ofNat 123, 'n', 'o', 't', ' ', 'v', 'a', 'l', 'i', 'd']

/-- Witness for C7_parse_error_handling on the malformed frame. -/
theorem C7_parse_error_handling_witness :
    wsHandleMessage "id-1" "ts-1" "err" (fun _ => "") (WireData.text malformedFrame)
      = [wsParseErrorMessage "id-1" "ts-1" malformedFrame "err"] ∧
    jsonField (wsParseErrorMessage "id-1" "ts-1" malformedFrame "err") "error_code"
      = some (Json.str "PARSE_ERROR") := by
  have h := C7_parse_error_handling "id-1" "ts-1" "err" malformedFrame (by rfl)
  exact ⟨h.1 _, h.2.2.1⟩
